import Mathlib

/-!
Verification development for the `ifile_reader` core: a shallow embedding of
the axis classifier (`core/domain/dependencies.py`), the channel VALUES
builder (`core/domain/channel.py`), the parameter views
(`core/domain/parameter.py`) and the offset-correction engine
(`core/corrections/offset.py`).

Numeric data is modelled with exact rationals (`ℚ`): every arithmetic
operation performed by the code (linear interpolation, means, subtraction)
is exact on rationals, and NaN produced by `np.interp(..., left=nan,
right=nan)` is modelled with `Option ℚ` (`none` = NaN).  Containers and the
per-channel VALUES mappings are modelled as ordered association lists with
Python-dict insert/replace semantics.
-/

/-- Python-dict lookup on an ordered association list (first matching key). -/
def dlookup {α : Type} (k : String) : List (String × α) → Option α
  | [] => none
  | (k', v) :: rest => if k' = k then some v else dlookup k rest

/-- Python-dict in-place value replacement: `d[k] = v` for a key already
present (keeps the entry position, leaves other entries alone). -/
def dupdate {α : Type} (k : String) (v : α) : List (String × α) → List (String × α)
  | [] => []
  | (k', v') :: rest => if k' = k then (k', v) :: rest else (k', v') :: dupdate k v rest

/-- Python-dict insertion `d[k] = v`: replace the value in place if the key
exists, otherwise append a new entry at the end. -/
def dinsert {α : Type} (m : List (String × α)) (k : String) (v : α) : List (String × α) :=
  if m.any (fun p => p.1 = k) then m.map (fun p => if p.1 = k then (k, v) else p)
  else m ++ [(k, v)]

/-- ASCII upper-casing, models Python `str.upper()` for the keys used here. -/
def upperStr (s : String) : String := ⟨s.data.map Char.toUpper⟩

/-- A numpy `ndarray` of doubles: its shape plus the row-major (C-order)
element buffer, exactly how numpy stores it. `reshape(-1)` is `flat`. -/
structure NArr where
  shape : List ℕ
  flat : List ℚ
deriving DecidableEq

/-- `ndarray.size`: the product of the dimension sizes. -/
def NArr.size (a : NArr) : ℕ := a.shape.prod

/-- `ndarray.ndim`: the number of dimensions. -/
def NArr.ndim (a : NArr) : ℕ := a.shape.length

/-- Well-formedness of an `NArr`: the buffer holds exactly one element per
position of the shape (true of every numpy array). -/
def NArr.wf (a : NArr) : Prop := a.flat.length = a.shape.prod

/-- One RawBlock of the container: the per-channel record with its `data`
array, `axis` samples and scalar metadata.  `compNames` models the optional
declared component-name list (the first of the keys `channel_names`,
`channels`, `names`, `components`, `subchannels` holding a list, if any). -/
structure ChBlock where
  data : NArr
  axis : List ℚ
  units : String := "-"
  description : String := ""
  compNames : Option (List String) := none
deriving DecidableEq

/-- The normalized container: a name → RawBlock mapping (Python dict). -/
abbrev Container := List (String × ChBlock)

/-! ### Axis classification (`core/domain/dependencies.py::_classify_axis`) -/

/-- Insert into an ascending-sorted list (helper for `sortAsc`). -/
def insSorted (x : ℚ) : List ℚ → List ℚ
  | [] => [x]
  | y :: ys => if x ≤ y then x :: y :: ys else y :: insSorted x ys

/-- Ascending sort by value; models the sort performed by `np.median`. -/
def sortAsc (xs : List ℚ) : List ℚ := xs.foldr insSorted []

/-- `np.nanmedian` on NaN-free data: middle element of the sorted list for
odd length, the mean of the two middle elements for even length. -/
def npMedian (xs : List ℚ) : ℚ :=
  let s := sortAsc xs
  let n := s.length
  if n = 0 then 0
  else if n % 2 = 1 then s.getD (n / 2) 0
  else (s.getD (n / 2 - 1) 0 + s.getD (n / 2) 0) / 2

/-- `np.diff`: consecutive differences. -/
def npDiff (xs : List ℚ) : List ℚ := List.zipWith (fun a b => b - a) xs xs.tail

/-- `np.nanmin` on NaN-free nonempty data (0 on empty, unused there). -/
def npNanMin : List ℚ → ℚ
  | [] => 0
  | x :: rest => rest.foldl min x

/-- `_classify_axis`: length < 2 → "CY"; otherwise "CA" iff the minimum is
negative or the median consecutive step has absolute value < 0.5. -/
def classify_axis (axis : List ℚ) : String :=
  if axis.length < 2 then "CY"
  else
    let amin := npNanMin axis
    let diffs := npDiff axis
    let step := if diffs.length ≠ 0 then npMedian diffs else 0
    if amin < 0 ∨ |step| < 1 / 2 then "CA" else "CY"

/-! ### Offset correction (`core/corrections/offset.py`) -/

/-- `np.interp(x, xp, fp, left=nan, right=nan)` at a single query point,
for an ascending `xp`: `none` (NaN) strictly outside `[xp[0], xp[-1]]`,
linear interpolation on the containing segment otherwise. -/
def interp1 (x : ℚ) : List ℚ → List ℚ → Option ℚ
  | x0 :: x1 :: xs, y0 :: y1 :: ys =>
      if x < x0 then none
      else if x ≤ x1 then some (y0 + (y1 - y0) * (x - x0) / (x1 - x0))
      else interp1 x (x1 :: xs) (y1 :: ys)
  | [x0], [y0] => if x = x0 then some y0 else none
  | _, _ => none

/-- Column `c` of a 2-D `NArr` (`data[:, c]`). -/
def col2 (a : NArr) (c : ℕ) : List ℚ :=
  (List.range (a.shape.getD 0 0)).map (fun i => a.flat.getD (i * a.shape.getD 1 0 + c) 0)

/-- `diff[valid]` for one cycle: interpolate the measured column onto the
reference axis (NaN outside the measured axis), form
`diff = r_cycle - m_interp`, and keep the valid (non-NaN) entries. -/
def offsetDiffs (rAxis mAxis rCol mCol : List ℚ) : List ℚ :=
  (rCol.zip (rAxis.map (fun x => interp1 x mAxis mCol))).filterMap
    (fun p => p.2.map (fun v => p.1 - v))

/-- The body of the per-cycle loop: the mean of the valid entries of
`diff`, and exactly 0.0 when no entry is valid. -/
def offsetForCycle (rAxis mAxis rCol mCol : List ℚ) : ℚ :=
  if offsetDiffs rAxis mAxis rCol mCol = [] then 0
  else (offsetDiffs rAxis mAxis rCol mCol).sum / ((offsetDiffs rAxis mAxis rCol mCol).length : ℚ)

/-- The `per_cycle_offset` vector: one `offsetForCycle` per cycle. -/
def perCycleOffsets (mData rData : NArr) (mAxis rAxis : List ℚ) : List ℚ :=
  (List.range (mData.shape.getD 1 0)).map (fun c =>
    offsetForCycle rAxis mAxis (col2 rData c) (col2 mData c))

/-- `m_data + per_cycle_offset`: broadcast the per-cycle offset vector over
the sample (row) dimension of a 2-D `[samples, cycles]` array. -/
def broadcastAddCycles (a : NArr) (off : List ℚ) : NArr :=
  { shape := a.shape,
    flat := (List.range a.size).map (fun k =>
      a.flat.getD k 0 + off.getD (k % a.shape.getD 1 0) 0) }

/-- Outcome of one `apply_offset_correction` call: skipped with a warning
(missing channel), aborted with a raised error, or applied. -/
inductive CorrOutcome where
  | skipped
  | err (msg : String)
  | applied
deriving DecidableEq

/-- `apply_offset_correction(raw, meas_name, ref_name)`: the returned
container is the state of `raw` after the call (Python mutates the dict in
place, so on a raised error the state is unchanged).  The guard before the
per-cycle loop models the `ValueError` that `np.interp` / the `diff`
broadcast raise at the first loop iteration when an axis length does not
match its channel's row count (or the measured axis is empty); it fires
only when the loop body runs at all (`n_cycles > 0`). -/
def apply_offset_correction (raw : Container) (measName refName : String) :
    Container × CorrOutcome :=
  match dlookup measName raw, dlookup refName raw with
  | some meas, some ref =>
    let mData := meas.data
    let rData := ref.data
    let mAxis := meas.axis
    let rAxis := ref.axis
    if mData.ndim ≠ 2 ∨ rData.ndim ≠ 2 then
      (raw, .err ("Expected 2D arrays for " ++ measName ++ " and " ++ refName))
    else
      let mN := mData.shape.getD 0 0
      let nCyclesM := mData.shape.getD 1 0
      let rN := rData.shape.getD 0 0
      let nCyclesR := rData.shape.getD 1 0
      if nCyclesM ≠ nCyclesR then
        (raw, .err ("Cycle count mismatch: " ++ measName ++ " has " ++ toString nCyclesM ++
          ", " ++ refName ++ " has " ++ toString nCyclesR))
      else if 0 < nCyclesM ∧ (mN = 0 ∨ mAxis.length ≠ mN ∨ rAxis.length ≠ rN) then
        (raw, .err "interpolation operand length mismatch")
      else
        let offs := perCycleOffsets mData rData mAxis rAxis
        let corrected := broadcastAddCycles mData offs
        (dupdate measName { meas with data := corrected } raw, .applied)
  | _, _ => (raw, .skipped)

/-- The measured block after one successful correction against `rb`:
`meas["data"] = m_data + per_cycle_offset` (all other fields untouched). -/
def afterCorrection (mb rb : ChBlock) : ChBlock :=
  { mb with data := broadcastAddCycles mb.data (perCycleOffsets mb.data rb.data mb.axis rb.axis) }

/-! ### Channel VALUES mapping (`core/domain/channel.py::_build_values_mapping`) -/

/-- `np.tile(xs, n)`: `n` concatenated copies of the whole sequence. -/
def npTile (xs : List ℚ) (n : ℕ) : List ℚ := (List.replicate n xs).flatten

/-- `np.repeat(xs, n)`: each element repeated `n` consecutive times. -/
def npRepeat (xs : List ℚ) (n : ℕ) : List ℚ := (xs.map (fun x => List.replicate n x)).flatten

/-- `np.resize(xs, total)`: cycle the sequence to the requested length. -/
def npResize (xs : List ℚ) (total : ℕ) : List ℚ :=
  (List.range total).map (fun k => xs.getD (k % xs.length) 0)

/-- `np.arange(total)` as rationals. -/
def npArangeQ (total : ℕ) : List ℚ := (List.range total).map (fun k : ℕ => (k : ℚ))

/-- `data.T.reshape(-1)` for a 2-D `(rows, cols)` array stored row-major:
the column-major traversal of the buffer. -/
def transposeFlat (rows cols : ℕ) (flat : List ℚ) : List ℚ :=
  (List.range (cols * rows)).map (fun k => flat.getD ((k % rows) * cols + k / rows) 0)

/-- The `for i, s in enumerate(data.shape)` scan: index of the first
dimension whose size equals `axis.size`, requiring `axis.size > 0`. -/
def findAxisDimAux (asize : ℕ) : ℕ → List ℕ → Option ℕ
  | _, [] => none
  | i, s :: rest =>
      if s = asize ∧ 0 < asize then some i else findAxisDimAux asize (i + 1) rest

/-- See `findAxisDimAux`. -/
def findAxisDim (shape : List ℕ) (asize : ℕ) : Option ℕ := findAxisDimAux asize 0 shape

/-- Row-major multi-index → flat index for the given shape. -/
def encodeIdx : List ℕ → List ℕ → ℕ
  | _ :: srest, i :: irest => i * srest.prod + encodeIdx srest irest
  | _, _ => 0

/-- Row-major flat index → multi-index for the given shape. -/
def decodeIdx : List ℕ → ℕ → List ℕ
  | [], _ => []
  | _ :: srest, k => (k / srest.prod) :: decodeIdx srest (k % srest.prod)

/-- Insert an element at position `d` of a list. -/
def insertAt (d : ℕ) (x : ℕ) (l : List ℕ) : List ℕ := l.take d ++ x :: l.drop d

/-- Source buffer index feeding position `k` of
`np.moveaxis(data, d, -1)`'s row-major buffer. -/
def moveSrcIndex (shape : List ℕ) (d : ℕ) (k : ℕ) : ℕ :=
  let shape' := shape.eraseIdx d ++ [shape.getD d 0]
  let idx := decodeIdx shape' k
  encodeIdx shape (insertAt d (idx.getLast?.getD 0) idx.dropLast)

/-- `np.moveaxis(data, d, -1)`: dimension `d` moves to the last position;
the new row-major buffer is the corresponding permutation of the old one. -/
def moveaxisLast (a : NArr) (d : ℕ) : NArr :=
  let shape' := a.shape.eraseIdx d ++ [a.shape.getD d 0]
  { shape := shape',
    flat := (List.range shape'.prod).map (fun k => a.flat.getD (moveSrcIndex a.shape d k) 0) }

/-- `ChannelView._build_values_mapping`: the VALUES dict for one channel.
Shape decision tree exactly as in the source; for `ndim ≥ 3` with a matched
axis dimension and a leading dimension of size > 1, component `i`'s column
`reshaped[i].reshape(-1)` is the `i`-th length-`total / leading[0]` chunk of
the moved row-major buffer (`reshape` never reorders the buffer, for both
the `(l0, -1, last)` and the `(l0, last)` variant). -/
def build_values_mapping (name : String) (b : ChBlock) : List (String × List ℚ) :=
  let data := b.data
  let axis := b.axis
  let asize := axis.length
  if data.size = 0 then
    dinsert (dinsert [] "CA" []) name []
  else if data.ndim = 1 then
    let ca := if asize = data.size then axis
      else if 0 < asize then npResize axis data.size
      else npArangeQ data.size
    dinsert (dinsert [] "CA" ca) name data.flat
  else if data.ndim = 2 then
    let rows := data.shape.getD 0 0
    let cols := data.shape.getD 1 0
    if asize = cols then
      dinsert (dinsert [] "CA" (npTile axis rows)) name data.flat
    else if asize = rows then
      dinsert (dinsert [] "CA" (npRepeat axis cols)) name (transposeFlat rows cols data.flat)
    else
      let total := data.size
      let ca := if 0 < asize then npResize axis total else npArangeQ total
      dinsert (dinsert [] "CA" ca) name data.flat
  else if 3 ≤ data.ndim then
    match findAxisDim data.shape asize with
    | some d =>
      let d2 := moveaxisLast data d
      let leading := d2.shape.dropLast
      let total := leading.prod * (d2.shape.getLast?.getD 0)
      let ca := npTile axis (total / asize)
      if leading ≠ [] ∧ 1 < leading.getD 0 0 then
        let l0 := leading.getD 0 0
        let chunk := total / l0
        let comps := (List.range l0).map (fun i => (d2.flat.drop (i * chunk)).take chunk)
        let defaults := (List.range l0).map (fun i => name ++ "_" ++ toString (i + 1))
        let names := match b.compNames with
          | some ns => if ns.length = l0 then ns else defaults
          | none => defaults
        (names.zip comps).foldl (fun m p => dinsert m p.1 p.2) (dinsert [] "CA" ca)
      else
        dinsert (dinsert [] "CA" ca) name d2.flat
    | none =>
      let total := data.size
      let ca := if 0 < asize then npResize axis total else npArangeQ total
      dinsert (dinsert [] "CA" ca) name data.flat
  else
    let total := data.size
    let ca := if 0 < asize then npResize axis total else npArangeQ total
    dinsert (dinsert [] "CA" ca) name data.flat

/-- Whether a block takes the multi-component branch of
`_build_values_mapping` (`ndim ≥ 3`, a matched axis dimension, and a
leading dimension of the moved array of size > 1). -/
def isMultiComponent (b : ChBlock) : Bool :=
  if b.data.size = 0 then false
  else if b.data.ndim < 3 then false
  else
    match findAxisDim b.data.shape b.axis.length with
    | some d =>
      let leading := (b.data.shape.eraseIdx d ++ [b.data.shape.getD d 0]).dropLast
      decide (leading ≠ []) && decide (1 < leading.getD 0 0)
    | none => false

/-- Number of components the multi-component branch splits the data into
(the leading dimension of the moved array); 0 off that branch. -/
def componentCount (b : ChBlock) : ℕ :=
  match findAxisDim b.data.shape b.axis.length with
  | some d => ((b.data.shape.eraseIdx d ++ [b.data.shape.getD d 0]).dropLast).getD 0 0
  | none => 0

/-- The component column names the multi-component branch uses: the declared
names when their count matches, else `name_1`, `name_2`, .... -/
def componentNames (name : String) (b : ChBlock) : List String :=
  let defaults := (List.range (componentCount b)).map (fun i => name ++ "_" ++ toString (i + 1))
  match b.compNames with
  | some ns => if ns.length = componentCount b then ns else defaults
  | none => defaults

/-! ### Parameter views (`core/domain/parameter.py`) -/

/-- A scalar value stored in a parameter record (number, text or `None`). -/
inductive PScalar where
  | num (q : ℚ)
  | str (s : String)
  | none_
deriving DecidableEq

/-- A dict-shaped parameter block: the `value` / `values` / `unit` /
`units` / `description` keys that the extraction code probes. -/
structure PRec where
  value : Option PScalar := none
  values : Option (List PScalar) := none
  unit : Option String := none
  units : Option String := none
  description : Option String := none
deriving DecidableEq

/-- A parameter block: Python `None`, a bare number, a bare string, or a
dict-shaped record. -/
inductive PBlock where
  | pynone
  | num (q : ℚ)
  | str (s : String)
  | record (r : PRec)
deriving DecidableEq

/-- The extracted parameter value: a float (possibly NaN), or — only on the
`TIMESTAMP` path, which skips the float coercion — a string or `None`. -/
inductive PVal where
  | num (q : ℚ)
  | nan
  | str (s : String)
  | pynone
deriving DecidableEq

/-- Python truthiness of a stored scalar (`0`, `""` and `None` are falsy). -/
def PScalar.truthy : PScalar → Bool
  | .num q => q ≠ 0
  | .str s => s ≠ ""
  | .none_ => false

/-- Reading a stored scalar out as an extracted value. -/
def PScalar.toPVal : PScalar → PVal
  | .num q => .num q
  | .str s => .str s
  | .none_ => .pynone

/-- Python `float()` on a plain decimal string literal (optional sign,
digits, optional fractional part); `none` models a raised `ValueError`. -/
def pyFloatOfString (s : String) : Option ℚ :=
  let cs := s.data
  let signAndRest : ℚ × List Char :=
    match cs with
    | '-' :: r => (-1, r)
    | '+' :: r => (1, r)
    | r => (1, r)
  let digitsVal : List Char → ℚ := fun ds =>
    ds.foldl (fun acc c => 10 * acc + ((c.toNat - 48 : ℕ) : ℚ)) 0
  let ip := signAndRest.2.takeWhile Char.isDigit
  let rest := signAndRest.2.dropWhile Char.isDigit
  match rest with
  | [] => if ip = [] then none else some (signAndRest.1 * digitsVal ip)
  | '.' :: frac =>
      if frac.all Char.isDigit ∧ (ip ≠ [] ∨ frac ≠ []) then
        some (signAndRest.1 * (digitsVal ip + digitsVal frac / (10 : ℚ) ^ frac.length))
      else none
  | _ => none

/-- `float(x)` on a stored scalar; `none` models a raised error. -/
def pyFloatOfScalar : PScalar → Option ℚ
  | .num q => some q
  | .str s => pyFloatOfString s
  | .none_ => none

/-- The trailing `val = float(val)` coercion with its except-fallback to
NaN (strings that do not parse, and `None`, become NaN). -/
def coerceFloat : PVal → PVal
  | .num q => .num q
  | .nan => .nan
  | .str s => match pyFloatOfString s with | some q => .num q | none => .nan
  | .pynone => .nan

/-- `_extract_param_components(pname, p)`: the `(value, unit, description)`
triple.  `none` models the one way the function can raise: the `TIMESTAMP`
special case indexing `p["values"][0]` on an empty list.  The unit is
`Option String` because the non-dict path yields Python `None`. -/
def param_extract_components (pname : String) (p : PBlock) :
    Option (PVal × Option String × String) :=
  match p with
  | .pynone => some (.nan, some "-", "")
  | .record r =>
    if upperStr pname = "TIMESTAMP" then
      let v1 := r.value.getD .none_
      match
        (if v1.truthy then some v1.toPVal
         else match r.values with
           | some [] => none
           | some (x :: _) => some x.toPVal
           | none => some PVal.pynone) with
      | none => none
      | some v => some (v, some (r.unit.getD "-"), r.description.getD "")
    else
      let v0 : PVal :=
        match r.value with
        | some s => s.toPVal
        | none =>
          match r.values with
          | some [] => .nan
          | some (x :: _) =>
              match pyFloatOfScalar x with
              | some q => PVal.num q
              | none => PVal.nan
          | none => .nan
      some (coerceFloat v0, some (r.unit.getD (r.units.getD "-")), r.description.getD "")
  | .num q => some (.num q, none, "")
  | .str s => some (coerceFloat (.str s), none, "")

/-- The per-parameter GENERAL record. -/
structure GeneralRec where
  channel : String
  units : String
  description : String
  base : String
  recordCount : ℕ
  range : String
  test : String
deriving DecidableEq

/-- Python `x or d` for strings (empty string is falsy). -/
def pyOrStr (o : Option String) (d : String) : String :=
  match o with
  | some s => if s = "" then d else s
  | none => d

/-- `ParameterView._build_general`: fixed `Base=""`, `RecordCount=1`,
`Range=""` plus the extracted unit/description.  `none` when the extraction
raises. -/
def param_build_general (pname : String) (p : PBlock) (test : String) :
    Option GeneralRec :=
  (param_extract_components pname p).map (fun e =>
    { channel := pname
      units := pyOrStr e.2.1 "-"
      description := e.2.2
      base := ""
      recordCount := 1
      range := ""
      test := test })

/-- A numpy array stored in a parameter VALUES mapping: the int index
column, a float column (`none` elements are NaN), or an object column. -/
inductive PArr where
  | ints (xs : List ℤ)
  | floats (xs : List (Option ℚ))
  | objs (xs : List PVal)
deriving DecidableEq

/-- `np.array([val], dtype=object)` for strings, `np.array([val],
dtype=float)` otherwise (`NaN` and `None` both become a NaN float). -/
def encodeParamVal : PVal → PArr
  | .str s => .objs [.str s]
  | .num q => .floats [some q]
  | .nan => .floats [none]
  | .pynone => .floats [none]

/-- `ParameterView._build_values`: the dict `{"": array([0]), pname:
one-element value column}` (a dict, so an empty `pname` collides with the
index key).  `none` when the extraction raises. -/
def param_build_values (pname : String) (p : PBlock) :
    Option (List (String × PArr)) :=
  (param_extract_components pname p).map (fun e =>
    dinsert (dinsert [] "" (PArr.ints [0])) pname (encodeParamVal e.1))

/-! ### Basic lemmas about the dict and numpy helpers -/

theorem getD_range_map {α : Type} [Inhabited α] (f : ℕ → α) (n k : ℕ) (d : α) (h : k < n) :
    ((List.range n).map f).getD k d = f k := by
  rw [List.getD_eq_getElem _ d (by simpa using h)]
  simp

theorem length_npTile (xs : List ℚ) (n : ℕ) : (npTile xs n).length = n * xs.length := by
  induction n with
  | zero => simp [npTile]
  | succ m ih =>
    simp only [npTile, List.replicate_succ, List.flatten_cons, List.length_append] at *
    rw [ih, Nat.succ_mul, Nat.add_comm]

theorem length_npRepeat (xs : List ℚ) (n : ℕ) : (npRepeat xs n).length = xs.length * n := by
  induction xs with
  | nil => simp [npRepeat]
  | cons x rest ih =>
    simp only [npRepeat, List.map_cons, List.flatten_cons, List.length_append,
      List.length_replicate, List.length_cons] at *
    rw [ih]
    ring

theorem length_npResize (xs : List ℚ) (total : ℕ) : (npResize xs total).length = total := by
  rw [npResize, List.length_map, List.length_range]

theorem length_npArangeQ (total : ℕ) : (npArangeQ total).length = total := by
  rw [npArangeQ, List.length_map, List.length_range]

theorem length_transposeFlat (rows cols : ℕ) (flat : List ℚ) :
    (transposeFlat rows cols flat).length = cols * rows := by
  rw [transposeFlat, List.length_map, List.length_range]

theorem npRepeat_getD (xs : List ℚ) (n k : ℕ) (h : k < xs.length * n) :
    (npRepeat xs n).getD k 0 = xs.getD (k / n) 0 := by
  have hn : 0 < n := by
    rcases Nat.eq_zero_or_pos n with h0 | h0
    · subst h0; simp at h
    · exact h0
  induction xs generalizing k with
  | nil => simp at h
  | cons x rest ih =>
    simp only [npRepeat, List.map_cons, List.flatten_cons]
    by_cases hk : k < n
    · rw [List.getD_append (List.replicate n x) _ 0 k (by simpa using hk)]
      rw [Nat.div_eq_of_lt hk]
      simp [List.getD, List.getElem?_replicate, hk]
    · push_neg at hk
      rw [List.getD_append_right (List.replicate n x) _ 0 k (by simpa using hk)]
      simp only [List.length_replicate]
      have hmul : (x :: rest).length * n = rest.length * n + n := by
        rw [List.length_cons, Nat.succ_mul]
      have hlt : k - n < rest.length * n := by
        rw [hmul] at h
        omega
      have := ih (k - n) hlt
      simp only [npRepeat] at this
      rw [this]
      have : k / n = (k - n) / n + 1 := by
        rw [Nat.div_eq_sub_div hn hk]
      rw [this, List.getD_cons_succ]

theorem dlookup_dupdate_ne {α : Type} (m : List (String × α)) (k k' : String) (v : α)
    (h : k ≠ k') : dlookup k (dupdate k' v m) = dlookup k m := by
  induction m with
  | nil => simp [dupdate]
  | cons p rest ih =>
    obtain ⟨pk, pv⟩ := p
    by_cases hpk : pk = k'
    · subst hpk
      simp only [dupdate, if_pos rfl, dlookup]
      rw [if_neg (by exact fun hh => h (hh.symm ▸ rfl)), if_neg (by exact fun hh => h (hh.symm ▸ rfl))]
    · simp only [dupdate, if_neg hpk, dlookup]
      by_cases hk : pk = k
      · simp [hk]
      · simp only [if_neg hk]
        exact ih

theorem dlookup_dupdate_self {α : Type} (m : List (String × α)) (k : String) (v w : α)
    (h : dlookup k m = some w) : dlookup k (dupdate k v m) = some v := by
  induction m with
  | nil => simp [dlookup] at h
  | cons p rest ih =>
    obtain ⟨pk, pv⟩ := p
    by_cases hpk : pk = k
    · subst hpk
      simp [dupdate, dlookup]
    · simp only [dlookup, if_neg hpk] at h
      simp only [dupdate, if_neg hpk, dlookup, if_neg hpk]
      exact ih h

theorem mem_dinsert {α : Type} (m : List (String × α)) (k : String) (v : α)
    (p : String × α) (h : p ∈ dinsert m k v) : p = (k, v) ∨ (p ∈ m ∧ p.1 ≠ k) := by
  unfold dinsert at h
  by_cases hc : m.any (fun q => q.1 = k)
  · rw [if_pos hc] at h
    rcases List.mem_map.mp h with ⟨q, hq, hqe⟩
    by_cases hqk : q.1 = k
    · rw [if_pos hqk] at hqe
      exact Or.inl hqe.symm
    · rw [if_neg hqk] at hqe
      exact Or.inr ⟨hqe ▸ hq, hqe ▸ hqk⟩
  · rw [if_neg hc] at h
    rcases List.mem_append.mp h with h1 | h1
    · right
      refine ⟨h1, ?_⟩
      intro hk
      exact hc (List.any_eq_true.mpr ⟨p, h1, by simpa using hk⟩)
    · left
      simpa using h1

theorem mem_foldl_dinsert {α : Type} (l : List (String × α)) (init : List (String × α))
    (p : String × α) (h : p ∈ l.foldl (fun m q => dinsert m q.1 q.2) init) :
    p ∈ init ∨ ∃ q ∈ l, p = q := by
  induction l generalizing init with
  | nil => exact Or.inl h
  | cons q rest ih =>
    simp only [List.foldl_cons] at h
    rcases ih (dinsert init q.1 q.2) h with h1 | h1
    · rcases mem_dinsert init q.1 q.2 p h1 with h2 | h2
      · exact Or.inr ⟨q, List.mem_cons_self _ _, by rw [h2]⟩
      · exact Or.inl h2.1
    · rcases h1 with ⟨q', hq', he⟩
      exact Or.inr ⟨q', List.mem_cons_of_mem _ hq', he⟩

theorem dlookup_nil {α : Type} (k : String) : dlookup (α := α) k [] = none := rfl

theorem dlookup_cons {α : Type} (k pk : String) (pv : α) (rest : List (String × α)) :
    dlookup k ((pk, pv) :: rest) = if pk = k then some pv else dlookup k rest := rfl

theorem dlookup_dinsert_ne {α : Type} (m : List (String × α)) (k k' : String) (v : α)
    (h : k ≠ k') : dlookup k (dinsert m k' v) = dlookup k m := by
  unfold dinsert
  by_cases hc : m.any (fun q => q.1 = k')
  · rw [if_pos hc]
    clear hc
    induction m with
    | nil => rfl
    | cons p rest ih =>
      obtain ⟨pk, pv⟩ := p
      by_cases hpk : pk = k'
      · simp only [List.map_cons, if_pos (show (pk, pv).1 = k' from hpk), dlookup_cons]
        rw [if_neg (fun hh => h hh.symm), if_neg (fun hh => h (by rw [← hpk, hh]))]
        exact ih
      · simp only [List.map_cons, if_neg (show ¬(pk, pv).1 = k' from hpk), dlookup_cons]
        by_cases hk : pk = k
        · rw [if_pos hk, if_pos hk]
        · rw [if_neg hk, if_neg hk]
          exact ih
  · rw [if_neg hc]
    clear hc
    induction m with
    | nil =>
      simp only [List.nil_append, dlookup_cons, dlookup_nil]
      rw [if_neg (fun hh => h hh.symm)]
    | cons p rest ih =>
      obtain ⟨pk, pv⟩ := p
      simp only [List.cons_append, dlookup_cons]
      by_cases hk : pk = k
      · rw [if_pos hk, if_pos hk]
      · rw [if_neg hk, if_neg hk]
        exact ih

theorem dlookup_foldl_dinsert_ne {α : Type} (l : List (String × α))
    (init : List (String × α)) (k : String) (h : ∀ q ∈ l, q.1 ≠ k) :
    dlookup k (l.foldl (fun m q => dinsert m q.1 q.2) init) = dlookup k init := by
  induction l generalizing init with
  | nil => rfl
  | cons q rest ih =>
    simp only [List.foldl_cons]
    rw [ih (dinsert init q.1 q.2) (fun q' hq' => h q' (List.mem_cons_of_mem _ hq'))]
    exact dlookup_dinsert_ne init k q.1 q.2 (fun hh => h q (List.mem_cons_self _ _) hh.symm)

theorem prod_eraseIdx_mul (s : List ℕ) (d : ℕ) (h : d < s.length) :
    (s.eraseIdx d).prod * s.getD d 0 = s.prod := by
  induction s generalizing d with
  | nil => simp at h
  | cons x xs ih =>
    cases d with
    | zero => simp [Nat.mul_comm]
    | succ d' =>
      simp only [List.eraseIdx_cons_succ, List.prod_cons, List.getD_cons_succ]
      rw [Nat.mul_assoc, ih d' (by simpa using h)]

theorem dropLast_prod_mul_getLast (l : List ℕ) (h : l ≠ []) :
    l.dropLast.prod * l.getLast?.getD 0 = l.prod := by
  induction l with
  | nil => simp at h
  | cons x xs ih =>
    cases xs with
    | nil => simp
    | cons y ys =>
      simp only [List.dropLast_cons₂, List.prod_cons, List.getLast?_cons_cons]
      have := ih (by simp)
      simp only [List.prod_cons] at this
      rw [Nat.mul_assoc, this]

theorem findAxisDimAux_spec (asize : ℕ) (s : List ℕ) (i d : ℕ)
    (h : findAxisDimAux asize i s = some d) :
    i ≤ d ∧ d - i < s.length ∧ s.getD (d - i) 0 = asize ∧ 0 < asize := by
  induction s generalizing i with
  | nil => simp [findAxisDimAux] at h
  | cons x xs ih =>
    unfold findAxisDimAux at h
    by_cases hc : x = asize ∧ 0 < asize
    · rw [if_pos hc] at h
      injection h with h
      subst h
      simpa using hc
    · rw [if_neg hc] at h
      obtain ⟨h1, h2, h3, h4⟩ := ih (i + 1) h
      refine ⟨by omega, by simp; omega, ?_, h4⟩
      have hd : d - i = (d - (i + 1)) + 1 := by omega
      rw [hd, List.getD_cons_succ]
      exact h3

theorem findAxisDim_spec (shape : List ℕ) (asize d : ℕ)
    (h : findAxisDim shape asize = some d) :
    d < shape.length ∧ shape.getD d 0 = asize ∧ 0 < asize := by
  obtain ⟨h1, h2, h3, h4⟩ := findAxisDimAux_spec asize shape 0 d h
  rw [Nat.sub_zero] at h2 h3
  exact ⟨h2, h3, h4⟩

theorem length_moveaxisLast_flat (a : NArr) (d : ℕ) :
    (moveaxisLast a d).flat.length = (moveaxisLast a d).shape.prod := by
  simp [moveaxisLast]

theorem shape_moveaxisLast (a : NArr) (d : ℕ) :
    (moveaxisLast a d).shape = a.shape.eraseIdx d ++ [a.shape.getD d 0] := rfl

theorem prod_moveaxisLast_shape (a : NArr) (d : ℕ) (h : d < a.shape.length) :
    (moveaxisLast a d).shape.prod = a.shape.prod := by
  rw [shape_moveaxisLast, List.prod_append, List.prod_cons, List.prod_nil, Nat.mul_one]
  exact prod_eraseIdx_mul a.shape d h

/-! ### Interpolation lemmas -/

theorem sorted_lt_of_mem (x : ℚ) (l : List ℚ) (y : ℚ)
    (h : List.Chain' (· < ·) (x :: l)) (hy : y ∈ l) : x < y := by
  have hp := List.chain'_iff_pairwise.mp h
  exact (List.pairwise_cons.mp hp).1 y hy

theorem head_le_getLast (x : ℚ) (l : List ℚ) (h : List.Chain' (· < ·) (x :: l)) :
    x ≤ ((x :: l).getLast?).getD 0 := by
  induction l generalizing x with
  | nil => simp
  | cons y ys ih =>
    rw [List.getLast?_cons_cons]
    have h1 := (List.chain'_cons.mp h).1
    have h2 := (List.chain'_cons.mp h).2
    exact le_of_lt (lt_of_lt_of_le h1 (ih y h2))

theorem interp1_at_node (a ys : List ℚ) (hs : List.Chain' (· < ·) a)
    (hlen : ys.length = a.length) (j : ℕ) (hj : j < a.length) :
    interp1 (a.getD j 0) a ys = some (ys.getD j 0) := by
  induction a generalizing ys j with
  | nil => simp at hj
  | cons x0 rest ih =>
    cases ys with
    | nil => simp at hlen
    | cons y0 ys' =>
      cases rest with
      | nil =>
        cases ys' with
        | nil =>
          have hj0 : j = 0 := by simpa using hj
          subst hj0
          simp [interp1]
        | cons _ _ => simp at hlen
      | cons x1 xs =>
        cases ys' with
        | nil => simp at hlen
        | cons y1 ys'' =>
          have hx01 : x0 < x1 := (List.chain'_cons.mp hs).1
          have hs' : List.Chain' (· < ·) (x1 :: xs) := (List.chain'_cons.mp hs).2
          cases j with
          | zero =>
            simp only [List.getD_cons_zero, interp1]
            rw [if_neg (lt_irrefl x0), if_pos (le_of_lt hx01)]
            congr 1
            have : x0 - x0 = 0 := sub_self x0
            rw [this, mul_zero, zero_div, add_zero]
          | succ j' =>
            have hj' : j' < (x1 :: xs).length := by simpa using hj
            simp only [List.getD_cons_succ]
            have hmem : (x1 :: xs).getD j' 0 ∈ x1 :: xs := by
              rw [List.getD_eq_getElem _ 0 hj']
              exact List.getElem_mem hj'
            have hx0lt : x0 < (x1 :: xs).getD j' 0 := sorted_lt_of_mem x0 _ _ hs hmem
            show interp1 ((x1 :: xs).getD j' 0) (x0 :: x1 :: xs) (y0 :: y1 :: ys'') = _
            rw [interp1]
            rw [if_neg (not_lt.mpr (le_of_lt hx0lt))]
            by_cases hle : (x1 :: xs).getD j' 0 ≤ x1
            · cases j' with
              | zero =>
                simp only [List.getD_cons_zero]
                rw [if_pos (le_refl x1)]
                congr 1
                have hne : x1 - x0 ≠ 0 := sub_ne_zero.mpr (ne_of_gt hx01)
                field_simp
              | succ j'' =>
                exfalso
                have hj'' : j'' < xs.length := by simpa using hj'
                have hmem2 : xs.getD j'' 0 ∈ xs := by
                  rw [List.getD_eq_getElem _ 0 hj'']
                  exact List.getElem_mem hj''
                have : x1 < xs.getD j'' 0 := sorted_lt_of_mem x1 xs _ hs' hmem2
                rw [List.getD_cons_succ] at hle
                exact absurd hle (not_le.mpr this)
            · rw [if_neg hle]
              exact ih (y1 :: ys'') hs' (by simpa using hlen) j' hj'

theorem interp1_outside (a ys : List ℚ) (x : ℚ) (hs : List.Chain' (· < ·) a)
    (ha : a ≠ []) (h : x < a.getD 0 0 ∨ ((a.getLast?).getD 0) < x) :
    interp1 x a ys = none := by
  induction a generalizing ys with
  | nil => exact absurd rfl ha
  | cons x0 rest ih =>
    cases rest with
    | nil =>
      cases ys with
      | nil => rfl
      | cons y0 ys' =>
        cases ys' with
        | nil =>
          have hne : x ≠ x0 := by
            rcases h with h1 | h1
            · exact ne_of_lt (by simpa using h1)
            · exact ne_of_gt (by simpa using h1)
          simp only [interp1]
          rw [if_neg hne]
        | cons _ _ => rfl
    | cons x1 xs =>
      cases ys with
      | nil => rfl
      | cons y0 ys' =>
        cases ys' with
        | nil => rfl
        | cons y1 ys'' =>
          have hx01 : x0 < x1 := (List.chain'_cons.mp hs).1
          have hs' : List.Chain' (· < ·) (x1 :: xs) := (List.chain'_cons.mp hs).2
          rcases h with h1 | h1
          · rw [interp1, if_pos (by simpa using h1)]
          · have hgt : ((x1 :: xs).getLast?).getD 0 < x := by
              rwa [List.getLast?_cons_cons] at h1
            have hx1le : x1 ≤ ((x1 :: xs).getLast?).getD 0 := head_le_getLast x1 xs hs'
            have hx1x : x1 < x := lt_of_le_of_lt hx1le hgt
            have hx0x : x0 < x := lt_trans hx01 hx1x
            rw [interp1, if_neg (not_lt.mpr (le_of_lt hx0x)), if_neg (not_le.mpr hx1x)]
            exact ih (y1 :: ys'') hs' (by simp) (Or.inr hgt)

theorem map_interp1_nodes (a ys : List ℚ) (hs : List.Chain' (· < ·) a)
    (hlen : ys.length = a.length) :
    a.map (fun x => interp1 x a ys) = ys.map some := by
  apply List.ext_getElem (by simp [hlen])
  intro n h1 h2
  simp only [List.getElem_map]
  have hn : n < a.length := by simpa using h1
  have hkey := interp1_at_node a ys hs hlen n hn
  rw [List.getD_eq_getElem a 0 hn, List.getD_eq_getElem ys 0 (by rw [hlen]; exact hn)] at hkey
  exact hkey

theorem filterMap_zip_map_some (r m : List ℚ) :
    ((r.zip (m.map some)).filterMap (fun p => p.2.map (fun v => p.1 - v))) =
      List.zipWith (fun u v => u - v) r m := by
  induction r generalizing m with
  | nil => simp
  | cons u us ih =>
    cases m with
    | nil => simp
    | cons v vs =>
      simp only [List.map_cons, List.zip_cons_cons, List.filterMap_cons, Option.map_some',
        List.zipWith_cons_cons]
      rw [ih]

theorem filterMap_zip_none (r : List ℚ) (i : List (Option ℚ))
    (h : ∀ o ∈ i, o = none) :
    ((r.zip i).filterMap (fun p => p.2.map (fun v => p.1 - v))) = [] := by
  rw [List.filterMap_eq_nil_iff]
  intro p hp
  rw [h p.2 (List.of_mem_zip hp).2]
  rfl

theorem offsetDiffs_same_axis (a r m : List ℚ) (hs : List.Chain' (· < ·) a)
    (hml : m.length = a.length) :
    offsetDiffs a a r m = List.zipWith (fun u v => u - v) r m := by
  unfold offsetDiffs
  rw [map_interp1_nodes a m hs hml, filterMap_zip_map_some]

theorem offsetForCycle_same_axis (a r m : List ℚ) (hs : List.Chain' (· < ·) a)
    (hml : m.length = a.length) (hrl : r.length = a.length) (hn : 0 < a.length) :
    offsetForCycle a a r m = (List.zipWith (fun u v => u - v) r m).sum / (a.length : ℚ) := by
  have hlen : (List.zipWith (fun u v => u - v) r m).length = a.length := by
    rw [List.length_zipWith, hml, hrl]
    exact Nat.min_self _
  unfold offsetForCycle
  rw [offsetDiffs_same_axis a r m hs hml]
  rw [if_neg (by
    intro heq
    rw [heq] at hlen
    simp at hlen
    omega), hlen]

theorem zipWith_sub_map_add (r m : List ℚ) (t : ℚ) :
    List.zipWith (fun u v => u - v) r (m.map (fun v => v + t)) =
      (List.zipWith (fun u v => u - v) r m).map (fun v => v - t) := by
  induction r generalizing m with
  | nil => simp
  | cons u us ih =>
    cases m with
    | nil => simp
    | cons v vs =>
      simp only [List.map_cons, List.zipWith_cons_cons]
      rw [ih]
      congr 1
      ring

theorem sum_map_sub_const (l : List ℚ) (t : ℚ) :
    (l.map (fun v => v - t)).sum = l.sum - (l.length : ℚ) * t := by
  induction l with
  | nil => simp
  | cons x xs ih =>
    simp only [List.map_cons, List.sum_cons, ih, List.length_cons]
    push_cast
    ring

theorem offsetForCycle_shifted (a r m : List ℚ) (t : ℚ) (hs : List.Chain' (· < ·) a)
    (hml : m.length = a.length) (hrl : r.length = a.length) (hn : 0 < a.length) :
    offsetForCycle a a r (m.map (fun v => v + t)) = offsetForCycle a a r m - t := by
  rw [offsetForCycle_same_axis a r (m.map (fun v => v + t)) hs (by simpa using hml) hrl hn,
    offsetForCycle_same_axis a r m hs hml hrl hn, zipWith_sub_map_add, sum_map_sub_const]
  have hlen : (List.zipWith (fun u v => u - v) r m).length = a.length := by
    rw [List.length_zipWith, hml, hrl]
    exact Nat.min_self _
  rw [hlen]
  have hpos : (0 : ℚ) < (a.length : ℚ) := by exact_mod_cast hn
  have hne : (a.length : ℚ) ≠ 0 := ne_of_gt hpos
  field_simp

/-! ### `apply_offset_correction`: path characterizations -/

theorem getD_pair_zero (n C : ℕ) : ([n, C] : List ℕ).getD 0 0 = n := rfl

theorem getD_pair_one (n C : ℕ) : ([n, C] : List ℕ).getD 1 0 = C := rfl

theorem apply_offset_correction_success (raw : Container) (measName refName : String)
    (mb rb : ChBlock) (n C rN : ℕ)
    (hm : dlookup measName raw = some mb) (hr : dlookup refName raw = some rb)
    (hms : mb.data.shape = [n, C]) (hrs : rb.data.shape = [rN, C])
    (hguard : ¬(0 < C ∧ (n = 0 ∨ mb.axis.length ≠ n ∨ rb.axis.length ≠ rN))) :
    apply_offset_correction raw measName refName =
      (dupdate measName (afterCorrection mb rb) raw, CorrOutcome.applied) := by
  have h1 : ¬(mb.data.ndim ≠ 2 ∨ rb.data.ndim ≠ 2) := by
    rw [NArr.ndim, NArr.ndim, hms, hrs]
    simp
  have h2 : ¬(mb.data.shape.getD 1 0 ≠ rb.data.shape.getD 1 0) := by
    rw [hms, hrs, getD_pair_one, getD_pair_one]
    simp
  have h3 : ¬(0 < mb.data.shape.getD 1 0 ∧ (mb.data.shape.getD 0 0 = 0 ∨
      mb.axis.length ≠ mb.data.shape.getD 0 0 ∨ rb.axis.length ≠ rb.data.shape.getD 0 0)) := by
    rw [hms, hrs, getD_pair_one, getD_pair_zero, getD_pair_zero]
    exact hguard
  unfold apply_offset_correction
  rw [hm, hr]
  simp only [if_neg h1, if_neg h2, if_neg h3]
  rfl

theorem apply_offset_correction_applied_inv (raw raw' : Container) (measName refName : String)
    (h : apply_offset_correction raw measName refName = (raw', CorrOutcome.applied)) :
    ∃ mb rb, dlookup measName raw = some mb ∧ dlookup refName raw = some rb ∧
      raw' = dupdate measName (afterCorrection mb rb) raw := by
  unfold apply_offset_correction at h
  cases hm : dlookup measName raw with
  | none =>
    rw [hm] at h
    simp at h
  | some mb =>
    cases hr : dlookup refName raw with
    | none =>
      rw [hm, hr] at h
      simp at h
    | some rb =>
      rw [hm, hr] at h
      simp only [] at h
      by_cases h1 : (mb.data.ndim ≠ 2 ∨ rb.data.ndim ≠ 2)
      · rw [if_pos h1] at h
        simp at h
      · rw [if_neg h1] at h
        by_cases h2 : mb.data.shape.getD 1 0 ≠ rb.data.shape.getD 1 0
        · rw [if_pos h2] at h
          simp at h
        · rw [if_neg h2] at h
          by_cases h3 : 0 < mb.data.shape.getD 1 0 ∧ (mb.data.shape.getD 0 0 = 0 ∨
              mb.axis.length ≠ mb.data.shape.getD 0 0 ∨
              rb.axis.length ≠ rb.data.shape.getD 0 0)
          · rw [if_pos h3] at h
            simp at h
          · rw [if_neg h3] at h
            refine ⟨mb, rb, rfl, rfl, ?_⟩
            have := congrArg Prod.fst h
            exact this.symm

/-! ### Claims C5 and C8 -/

/-- C5: when both looked-up blocks are 2-D but their cycle counts (second
data dimension) differ, `apply_offset_correction` raises the cycle-count
mismatch error and the container state after the call is exactly the state
before it — no block's data is touched. -/
theorem offset_cycle_mismatch_aborts_unchanged
    (raw : Container) (measName refName : String) (mb rb : ChBlock)
    (mn mc rn rc : ℕ)
    (hm : dlookup measName raw = some mb) (hr : dlookup refName raw = some rb)
    (hms : mb.data.shape = [mn, mc]) (hrs : rb.data.shape = [rn, rc])
    (hne : mc ≠ rc) :
    apply_offset_correction raw measName refName =
      (raw, CorrOutcome.err ("Cycle count mismatch: " ++ measName ++ " has " ++ toString mc ++
        ", " ++ refName ++ " has " ++ toString rc)) := by
  have h1 : ¬(mb.data.ndim ≠ 2 ∨ rb.data.ndim ≠ 2) := by
    rw [NArr.ndim, NArr.ndim, hms, hrs]
    simp
  have h2 : mb.data.shape.getD 1 0 ≠ rb.data.shape.getD 1 0 := by
    rw [hms, hrs, getD_pair_one, getD_pair_one]
    exact hne
  unfold apply_offset_correction
  rw [hm, hr]
  simp only [if_neg h1, if_pos h2]
  rw [hms, hrs, getD_pair_one, getD_pair_one]

/-- Concrete data for the correction examples. -/
def cmbC5 : ChBlock := { data := ⟨[1, 3], [1, 2, 3]⟩, axis := [0] }

/-- Concrete data for the correction examples. -/
def crbC5 : ChBlock := { data := ⟨[1, 4], [1, 2, 3, 4]⟩, axis := [0] }

/-- Concrete container: measured has 3 cycles, reference has 4. -/
def rawC5 : Container := [("M", cmbC5), ("R", crbC5)]

/-- C5 witness: the theorem applied to a concrete 3-cycle / 4-cycle pair. -/
theorem offset_cycle_mismatch_aborts_unchanged_witness :
    apply_offset_correction rawC5 "M" "R" =
      (rawC5, CorrOutcome.err ("Cycle count mismatch: M has " ++ toString 3 ++
        ", R has " ++ toString 4)) := by
  have := offset_cycle_mismatch_aborts_unchanged rawC5 "M" "R" cmbC5 crbC5 1 3 1 4
    (by decide) (by decide) rfl rfl (by decide)
  simpa using this

/-- C8: a successful `apply_offset_correction` call changes at most the
measured entry's `data`: every other container entry (in particular the
whole reference block) is looked up unchanged, and the measured block keeps
its axis, units, description and component names. -/
theorem offset_success_frame (raw raw' : Container) (measName refName : String)
    (hmr : measName ≠ refName)
    (h : apply_offset_correction raw measName refName = (raw', CorrOutcome.applied)) :
    (∀ k, k ≠ measName → dlookup k raw' = dlookup k raw) ∧
    dlookup refName raw' = dlookup refName raw ∧
    (dlookup measName raw').isSome = true ∧
    (dlookup measName raw').map ChBlock.axis = (dlookup measName raw).map ChBlock.axis ∧
    (dlookup measName raw').map ChBlock.units = (dlookup measName raw).map ChBlock.units ∧
    (dlookup measName raw').map ChBlock.description =
      (dlookup measName raw).map ChBlock.description ∧
    (dlookup measName raw').map ChBlock.compNames =
      (dlookup measName raw).map ChBlock.compNames := by
  obtain ⟨mb, rb, hm, hr, he⟩ := apply_offset_correction_applied_inv raw raw' measName refName h
  subst he
  have hup := dlookup_dupdate_self raw measName (afterCorrection mb rb) mb hm
  refine ⟨?_, ?_, ?_, ?_, ?_, ?_, ?_⟩
  · intro k hk
    exact dlookup_dupdate_ne raw k measName (afterCorrection mb rb) hk
  · exact dlookup_dupdate_ne raw refName measName (afterCorrection mb rb)
      (fun hh => hmr hh.symm)
  · rw [hup]
    rfl
  · rw [hup, hm]
    rfl
  · rw [hup, hm]
    rfl
  · rw [hup, hm]
    rfl
  · rw [hup, hm]
    rfl

/-- Concrete data for the frame example. -/
def cmbC8 : ChBlock := { data := ⟨[1, 1], [3]⟩, axis := [0] }

/-- Concrete data for the frame example. -/
def crbC8 : ChBlock := { data := ⟨[1, 1], [5]⟩, axis := [0] }

/-- Concrete container for the frame example. -/
def rawC8 : Container := [("M", cmbC8), ("R", crbC8)]

/-- C8 witness: the frame theorem applied to a concrete successful call. -/
theorem offset_success_frame_witness :
    dlookup "R" (dupdate "M" (afterCorrection cmbC8 crbC8) rawC8) = dlookup "R" rawC8 ∧
    (dlookup "M" (dupdate "M" (afterCorrection cmbC8 crbC8) rawC8)).map ChBlock.axis =
      (dlookup "M" rawC8).map ChBlock.axis := by
  have h : apply_offset_correction rawC8 "M" "R" =
      (dupdate "M" (afterCorrection cmbC8 crbC8) rawC8, CorrOutcome.applied) :=
    apply_offset_correction_success rawC8 "M" "R" cmbC8 crbC8 1 1 1
      (by decide) (by decide) rfl rfl (by decide)
  have hall := offset_success_frame rawC8
    (dupdate "M" (afterCorrection cmbC8 crbC8) rawC8) "M" "R" (by decide) h
  exact ⟨hall.2.1, hall.2.2.2.1⟩

/-! ### Column and offset-vector helper lemmas -/

theorem col2_of_shape (a : NArr) (n C c : ℕ) (h : a.shape = [n, C]) :
    col2 a c = (List.range n).map (fun i => a.flat.getD (i * C + c) 0) := by
  unfold col2
  rw [h, getD_pair_zero, getD_pair_one]

theorem perCycleOffsets_of_shape (mData rData : NArr) (mAxis rAxis : List ℚ) (n C : ℕ)
    (h : mData.shape = [n, C]) :
    perCycleOffsets mData rData mAxis rAxis =
      (List.range C).map (fun c => offsetForCycle rAxis mAxis (col2 rData c) (col2 mData c)) := by
  unfold perCycleOffsets
  rw [h, getD_pair_one]

theorem size_of_shape_pair (a : NArr) (n C : ℕ) (h : a.shape = [n, C]) :
    a.size = n * C := by
  rw [NArr.size, h]
  simp [List.prod_cons]

theorem mul_add_lt_of_pair (i n C c : ℕ) (hi : i < n) (hc : c < C) :
    i * C + c < n * C := by
  calc i * C + c < i * C + C := by omega
    _ = (i + 1) * C := by ring
    _ ≤ n * C := Nat.mul_le_mul_right C (by omega)

theorem mod_cycles (i C c : ℕ) (hc : c < C) : (i * C + c) % C = c := by
  rw [Nat.mul_comm i C, Nat.mul_add_mod C i c]
  exact Nat.mod_eq_of_lt hc

theorem col2_broadcastAddCycles (a : NArr) (off : List ℚ) (n C c : ℕ)
    (hshape : a.shape = [n, C]) (hc : c < C) :
    col2 (broadcastAddCycles a off) c = (col2 a c).map (fun v => v + off.getD c 0) := by
  have hsh : (broadcastAddCycles a off).shape = [n, C] := by
    rw [broadcastAddCycles, hshape]
  rw [col2_of_shape (broadcastAddCycles a off) n C c hsh, col2_of_shape a n C c hshape,
    List.map_map]
  apply List.map_congr_left
  intro i hi
  have hi' : i < n := List.mem_range.mp hi
  have hk : i * C + c < a.size := by
    rw [size_of_shape_pair a n C hshape]
    exact mul_add_lt_of_pair i n C c hi' hc
  show (broadcastAddCycles a off).flat.getD (i * C + c) 0 = _
  rw [broadcastAddCycles]
  simp only []
  rw [getD_range_map (fun k => a.flat.getD k 0 + off.getD (k % a.shape.getD 1 0) 0)
    a.size (i * C + c) 0 hk]
  rw [hshape, getD_pair_one, mod_cycles i C c hc]
  rfl

theorem offsetForCycle_no_overlap (rAxis mAxis rCol mCol : List ℚ)
    (hs : List.Chain' (· < ·) mAxis) (hne : mAxis ≠ [])
    (h : ∀ x ∈ rAxis, x < mAxis.getD 0 0 ∨ ((mAxis.getLast?).getD 0) < x) :
    offsetForCycle rAxis mAxis rCol mCol = 0 := by
  have hd : offsetDiffs rAxis mAxis rCol mCol = [] := by
    unfold offsetDiffs
    apply filterMap_zip_none
    intro o ho
    rcases List.mem_map.mp ho with ⟨x, hx, hxo⟩
    rw [← hxo]
    exact interp1_outside mAxis mCol x hs hne (h x hx)
  unfold offsetForCycle
  rw [hd]
  simp

theorem range_map_const (C : ℕ) (q : ℚ) :
    (List.range C).map (fun _ => q) = List.replicate C q := by
  induction C with
  | zero => simp
  | succ n ih =>
    rw [List.range_succ, List.map_append, ih, List.map_singleton,
      List.replicate_succ' n q]

/-! ### Claim C6 -/

/-- C6: for a valid 2-D correction pair whose reference axis lies entirely
outside the measured axis range, the correction applies without error, the
per-cycle offset vector is exactly zero, and the measured data is unchanged
in value. -/
theorem offset_no_overlap_zero
    (raw : Container) (measName refName : String) (mb rb : ChBlock)
    (mn rn C : ℕ)
    (hm : dlookup measName raw = some mb) (hr : dlookup refName raw = some rb)
    (hms : mb.data.shape = [mn, C]) (hrs : rb.data.shape = [rn, C])
    (hml : mb.axis.length = mn) (hrl : rb.axis.length = rn)
    (hmn : 0 < mn) (hwf : mb.data.flat.length = mn * C)
    (hs : List.Chain' (· < ·) mb.axis)
    (hout : ∀ x ∈ rb.axis, x < mb.axis.getD 0 0 ∨ ((mb.axis.getLast?).getD 0) < x) :
    apply_offset_correction raw measName refName =
      (dupdate measName (afterCorrection mb rb) raw, CorrOutcome.applied) ∧
    perCycleOffsets mb.data rb.data mb.axis rb.axis = List.replicate C (0 : ℚ) ∧
    (afterCorrection mb rb).data.flat = mb.data.flat := by
  have hane : mb.axis ≠ [] := by
    intro hh
    rw [hh] at hml
    simp at hml
    omega
  have hoffs : perCycleOffsets mb.data rb.data mb.axis rb.axis = List.replicate C (0 : ℚ) := by
    rw [perCycleOffsets_of_shape mb.data rb.data mb.axis rb.axis mn C hms]
    rw [List.map_congr_left (fun c _ =>
      offsetForCycle_no_overlap rb.axis mb.axis (col2 rb.data c) (col2 mb.data c) hs hane hout)]
    exact range_map_const C 0
  refine ⟨?_, hoffs, ?_⟩
  · apply apply_offset_correction_success raw measName refName mb rb mn C rn hm hr hms hrs
    intro hcon
    rcases hcon.2 with hz | hlen | hlen
    · omega
    · exact hlen hml
    · exact hlen hrl
  · show (broadcastAddCycles mb.data (perCycleOffsets mb.data rb.data mb.axis rb.axis)).flat =
      mb.data.flat
    rw [hoffs, broadcastAddCycles]
    simp only []
    apply List.ext_getElem
    · rw [List.length_map, List.length_range, size_of_shape_pair mb.data mn C hms, hwf]
    · intro k h1 h2
      have hk : k < mb.data.size := by simpa using h1
      have hkk : k < mn * C := by
        rw [← size_of_shape_pair mb.data mn C hms]
        exact hk
      have hC : 0 < C := by
        rcases Nat.eq_zero_or_pos C with h0 | h0
        · subst h0; simp at hkk
        · exact h0
      rw [List.getElem_map, List.getElem_range]
      rw [hms, getD_pair_one]
      have hrep : (List.replicate C (0 : ℚ)).getD (k % C) 0 = 0 := by
        rw [List.getD_eq_getElem _ 0 (by simpa using Nat.mod_lt k hC)]
        simp
      rw [hrep, add_zero]
      exact List.getD_eq_getElem mb.data.flat 0 h2

/-- Concrete data: measured axis `[0,1]`, reference axis `[100,101]`. -/
def cmbC6 : ChBlock := { data := ⟨[2, 1], [1, 2]⟩, axis := [0, 1] }

/-- Concrete data: reference block far outside the measured axis. -/
def crbC6 : ChBlock := { data := ⟨[2, 1], [7, 8]⟩, axis := [100, 101] }

/-- Concrete container for the no-overlap example. -/
def rawC6 : Container := [("M", cmbC6), ("R", crbC6)]

/-- C6 witness: the no-overlap theorem applied to a concrete pair; the
per-cycle offset vector is exactly `[0]`. -/
theorem offset_no_overlap_zero_witness :
    perCycleOffsets cmbC6.data crbC6.data cmbC6.axis crbC6.axis =
      List.replicate 1 (0 : ℚ) ∧
    (afterCorrection cmbC6 crbC6).data.flat = cmbC6.data.flat := by
  have hch : List.Chain' (· < ·) cmbC6.axis := by
    show List.Chain' (· < ·) ([0, 1] : List ℚ)
    refine List.chain'_cons.mpr ⟨by norm_num, by simp⟩
  have h := offset_no_overlap_zero rawC6 "M" "R" cmbC6 crbC6 2 2 1
    (by decide) (by decide) rfl rfl rfl rfl (by decide) (by decide) hch (by decide)
  exact ⟨h.2.1, h.2.2⟩

/-! ### Claim C1 -/

theorem zipWith_map_map {α β γ δ : Type} (f : β → γ → δ) (g : α → β) (h : α → γ)
    (l : List α) :
    List.zipWith f (l.map g) (l.map h) = l.map (fun x => f (g x) (h x)) := by
  induction l with
  | nil => simp
  | cons x xs ih => simp [ih]

/-- The shared crank-angle axis of the offset-correction exactness test. -/
def ax5 : List ℚ := [0, 1, 2, 3, 4]

/-- C1: for 5-sample, 3-cycle blocks sharing the axis `[0,1,2,3,4]` with
measured = reference − 2 everywhere, the correction applies, the corrected
measured data equals the reference within 1e-9 at every position, and the
corrected data is the original measured array plus the per-cycle offset
broadcast so that every sample of cycle `c` receives cycle `c`'s offset. -/
theorem offset_correction_exact
    (raw : Container) (measName refName : String) (mb rb : ChBlock)
    (hm : dlookup measName raw = some mb) (hr : dlookup refName raw = some rb)
    (hms : mb.data.shape = [5, 3]) (hrs : rb.data.shape = [5, 3])
    (hma : mb.axis = ax5) (hra : rb.axis = ax5)
    (hdiff : ∀ k, k < 15 → mb.data.flat.getD k 0 = rb.data.flat.getD k 0 - 2) :
    apply_offset_correction raw measName refName =
      (dupdate measName (afterCorrection mb rb) raw, CorrOutcome.applied) ∧
    (∀ k, k < 15 →
      |(afterCorrection mb rb).data.flat.getD k 0 - rb.data.flat.getD k 0| ≤
        1 / 1000000000) ∧
    (∀ i c, i < 5 → c < 3 →
      (afterCorrection mb rb).data.flat.getD (i * 3 + c) 0 =
        mb.data.flat.getD (i * 3 + c) 0 +
          (perCycleOffsets mb.data rb.data mb.axis rb.axis).getD c 0) := by
  have hax : (ax5 : List ℚ).length = 5 := rfl
  have hchain : List.Chain' (· < ·) ax5 := by
    rw [ax5]
    refine List.chain'_cons.mpr ⟨by norm_num, ?_⟩
    refine List.chain'_cons.mpr ⟨by norm_num, ?_⟩
    refine List.chain'_cons.mpr ⟨by norm_num, ?_⟩
    refine List.chain'_cons.mpr ⟨by norm_num, ?_⟩
    simp
  have hsize : mb.data.size = 15 := by
    rw [size_of_shape_pair mb.data 5 3 hms]
  -- the per-cycle offsets are all exactly 2
  have hoff : ∀ c, c < 3 →
      (perCycleOffsets mb.data rb.data mb.axis rb.axis).getD c 0 = 2 := by
    intro c hc
    rw [perCycleOffsets_of_shape mb.data rb.data mb.axis rb.axis 5 3 hms]
    rw [getD_range_map _ 3 c 0 hc]
    rw [hma, hra]
    rw [col2_of_shape rb.data 5 3 c hrs, col2_of_shape mb.data 5 3 c hms]
    rw [offsetForCycle_same_axis ax5 _ _ hchain (by simp [hax]) (by simp [hax]) (by rw [hax]; omega)]
    rw [zipWith_map_map]
    have hcongr : ∀ i ∈ List.range 5,
        rb.data.flat.getD (i * 3 + c) 0 - mb.data.flat.getD (i * 3 + c) 0 = (fun _ : ℕ => (2 : ℚ)) i := by
      intro i hi
      have hik : i * 3 + c < 15 := mul_add_lt_of_pair i 5 3 c (List.mem_range.mp hi) hc
      rw [hdiff (i * 3 + c) hik]
      ring
    rw [List.map_congr_left hcongr, range_map_const 5 2, hax]
    rw [List.sum_replicate]
    norm_num
  -- pointwise description of the corrected buffer
  have hbc : ∀ k, k < 15 →
      (afterCorrection mb rb).data.flat.getD k 0 =
        mb.data.flat.getD k 0 +
          (perCycleOffsets mb.data rb.data mb.axis rb.axis).getD (k % 3) 0 := by
    intro k hk
    show (broadcastAddCycles mb.data
      (perCycleOffsets mb.data rb.data mb.axis rb.axis)).flat.getD k 0 = _
    rw [broadcastAddCycles]
    simp only []
    rw [getD_range_map _ mb.data.size k 0 (by rw [hsize]; exact hk)]
    rw [hms, getD_pair_one]
  refine ⟨?_, ?_, ?_⟩
  · apply apply_offset_correction_success raw measName refName mb rb 5 3 5 hm hr hms hrs
    intro hcon
    rcases hcon.2 with h0 | hlen | hlen
    · omega
    · exact hlen (by simp [hma, ax5])
    · exact hlen (by simp [hra, ax5])
  · intro k hk
    rw [hbc k hk, hoff (k % 3) (Nat.mod_lt k (by norm_num)), hdiff k hk]
    rw [show rb.data.flat.getD k 0 - 2 + 2 - rb.data.flat.getD k 0 = 0 from by ring]
    norm_num
  · intro i c hi hc
    have hik : i * 3 + c < 15 := mul_add_lt_of_pair i 5 3 c hi hc
    rw [hbc (i * 3 + c) hik, mod_cycles i 3 c hc]

/-- Concrete measured block: 5 samples, 3 cycles, all zeros. -/
def cmbC1 : ChBlock := { data := ⟨[5, 3], List.replicate 15 0⟩, axis := ax5 }

/-- Concrete reference block: 5 samples, 3 cycles, all twos. -/
def crbC1 : ChBlock := { data := ⟨[5, 3], List.replicate 15 2⟩, axis := ax5 }

/-- Concrete container: measured = reference − 2 everywhere. -/
def rawC1 : Container := [("M", cmbC1), ("R", crbC1)]

/-- C1 witness: the exactness theorem applied to the concrete pair. -/
theorem offset_correction_exact_witness :
    |(afterCorrection cmbC1 crbC1).data.flat.getD 0 0 - crbC1.data.flat.getD 0 0| ≤
      1 / 1000000000 := by
  have hdiff : ∀ k, k < 15 →
      cmbC1.data.flat.getD k 0 = crbC1.data.flat.getD k 0 - 2 := by
    intro k hk
    have h0 : (List.replicate 15 (0 : ℚ)).getD k 0 = 0 := by
      rw [List.getD_eq_getElem _ 0 (by simpa using hk)]
      simp only [List.getElem_replicate]
    have h2 : (List.replicate 15 (2 : ℚ)).getD k 0 = 2 := by
      rw [List.getD_eq_getElem _ 0 (by simpa using hk)]
      simp only [List.getElem_replicate]
    show (List.replicate 15 (0 : ℚ)).getD k 0 = (List.replicate 15 (2 : ℚ)).getD k 0 - 2
    rw [h0, h2]
    norm_num
  exact (offset_correction_exact rawC1 "M" "R" cmbC1 crbC1 (by decide) (by decide)
    rfl rfl rfl rfl hdiff).2.1 0 (by norm_num)

/-! ### Claim C7 -/

/-- C7: after a first successful correction between channels sharing one
strictly increasing axis, re-applying the same correction succeeds, the
residual per-cycle offsets are within 1e-9 of zero (they are exactly zero
in exact arithmetic), and the twice-corrected data agrees with the
once-corrected data within 1e-9 at every position — no drift accumulates. -/
theorem offset_correction_idempotent
    (raw : Container) (measName refName : String) (mb rb : ChBlock)
    (a : List ℚ) (n C : ℕ)
    (hmr : measName ≠ refName)
    (hm : dlookup measName raw = some mb) (hr : dlookup refName raw = some rb)
    (hms : mb.data.shape = [n, C]) (hrs : rb.data.shape = [n, C])
    (hma : mb.axis = a) (hra : rb.axis = a)
    (hal : a.length = n) (hn : 0 < n)
    (hs : List.Chain' (· < ·) a) :
    apply_offset_correction raw measName refName =
      (dupdate measName (afterCorrection mb rb) raw, CorrOutcome.applied) ∧
    apply_offset_correction (dupdate measName (afterCorrection mb rb) raw) measName refName =
      (dupdate measName (afterCorrection (afterCorrection mb rb) rb)
        (dupdate measName (afterCorrection mb rb) raw), CorrOutcome.applied) ∧
    (∀ c, c < C →
      |(perCycleOffsets (afterCorrection mb rb).data rb.data
          (afterCorrection mb rb).axis rb.axis).getD c 0| ≤ 1 / 1000000000) ∧
    (∀ k, k < n * C →
      |(afterCorrection (afterCorrection mb rb) rb).data.flat.getD k 0 -
        (afterCorrection mb rb).data.flat.getD k 0| ≤ 1 / 1000000000) := by
  have hshape1 : (afterCorrection mb rb).data.shape = [n, C] := hms
  have haxis1 : (afterCorrection mb rb).axis = a := hma
  have hguard : ¬(0 < C ∧ (n = 0 ∨ mb.axis.length ≠ n ∨ rb.axis.length ≠ n)) := by
    intro hcon
    rcases hcon.2 with h0 | hlen | hlen
    · omega
    · exact hlen (by rw [hma, hal])
    · exact hlen (by rw [hra, hal])
  have h1 : apply_offset_correction raw measName refName =
      (dupdate measName (afterCorrection mb rb) raw, CorrOutcome.applied) :=
    apply_offset_correction_success raw measName refName mb rb n C n hm hr hms hrs hguard
  have hm1 : dlookup measName (dupdate measName (afterCorrection mb rb) raw) =
      some (afterCorrection mb rb) :=
    dlookup_dupdate_self raw measName (afterCorrection mb rb) mb hm
  have hr1 : dlookup refName (dupdate measName (afterCorrection mb rb) raw) = some rb := by
    rw [dlookup_dupdate_ne raw refName measName (afterCorrection mb rb)
      (fun hh => hmr hh.symm)]
    exact hr
  have hguard1 : ¬(0 < C ∧ (n = 0 ∨ (afterCorrection mb rb).axis.length ≠ n ∨
      rb.axis.length ≠ n)) := by
    intro hcon
    rcases hcon.2 with h0 | hlen | hlen
    · omega
    · exact hlen (by rw [haxis1, hal])
    · exact hlen (by rw [hra, hal])
  have h2 : apply_offset_correction (dupdate measName (afterCorrection mb rb) raw)
      measName refName =
      (dupdate measName (afterCorrection (afterCorrection mb rb) rb)
        (dupdate measName (afterCorrection mb rb) raw), CorrOutcome.applied) :=
    apply_offset_correction_success _ measName refName (afterCorrection mb rb) rb n C n
      hm1 hr1 hshape1 hrs hguard1
  have hlen_col : ∀ (x : NArr) (c : ℕ), x.shape = [n, C] → (col2 x c).length = a.length := by
    intro x c hx
    rw [col2_of_shape x n C c hx, List.length_map, List.length_range, hal]
  have hoffs_eq : ∀ c, c < C →
      (perCycleOffsets mb.data rb.data mb.axis rb.axis).getD c 0 =
        offsetForCycle a a (col2 rb.data c) (col2 mb.data c) := by
    intro c hc
    rw [perCycleOffsets_of_shape mb.data rb.data mb.axis rb.axis n C hms,
      getD_range_map _ C c 0 hc, hma, hra]
  have hres : ∀ c, c < C →
      (perCycleOffsets (afterCorrection mb rb).data rb.data
        (afterCorrection mb rb).axis rb.axis).getD c 0 = 0 := by
    intro c hc
    rw [perCycleOffsets_of_shape (afterCorrection mb rb).data rb.data
      (afterCorrection mb rb).axis rb.axis n C hshape1, getD_range_map _ C c 0 hc]
    rw [haxis1, hra]
    have hcol : col2 (afterCorrection mb rb).data c =
        (col2 mb.data c).map (fun v =>
          v + (perCycleOffsets mb.data rb.data mb.axis rb.axis).getD c 0) := by
      show col2 (broadcastAddCycles mb.data
        (perCycleOffsets mb.data rb.data mb.axis rb.axis)) c = _
      exact col2_broadcastAddCycles mb.data _ n C c hms hc
    rw [hcol]
    rw [offsetForCycle_shifted a (col2 rb.data c) (col2 mb.data c) _ hs
      (hlen_col mb.data c hms) (hlen_col rb.data c hrs) (by rw [hal]; exact hn)]
    rw [hoffs_eq c hc]
    exact sub_self _
  refine ⟨h1, h2, ?_, ?_⟩
  · intro c hc
    rw [hres c hc]
    norm_num
  · intro k hk
    have hC : 0 < C := by
      rcases Nat.eq_zero_or_pos C with h0 | h0
      · subst h0; simp at hk
      · exact h0
    have hsize1 : (afterCorrection mb rb).data.size = n * C :=
      size_of_shape_pair (afterCorrection mb rb).data n C hshape1
    have hbc : (afterCorrection (afterCorrection mb rb) rb).data.flat.getD k 0 =
        (afterCorrection mb rb).data.flat.getD k 0 +
          (perCycleOffsets (afterCorrection mb rb).data rb.data
            (afterCorrection mb rb).axis rb.axis).getD (k % C) 0 := by
      show (broadcastAddCycles (afterCorrection mb rb).data
        (perCycleOffsets (afterCorrection mb rb).data rb.data
          (afterCorrection mb rb).axis rb.axis)).flat.getD k 0 = _
      rw [broadcastAddCycles]
      simp only []
      rw [getD_range_map _ ((afterCorrection mb rb).data.size) k 0 (by rw [hsize1]; exact hk)]
      rw [hshape1, getD_pair_one]
    rw [hbc, hres (k % C) (Nat.mod_lt k hC)]
    rw [show (afterCorrection mb rb).data.flat.getD k 0 + 0 -
      (afterCorrection mb rb).data.flat.getD k 0 = 0 from by ring]
    norm_num

/-- Concrete blocks for the idempotence example. -/
def cmbC7 : ChBlock := { data := ⟨[1, 1], [3]⟩, axis := [0] }

/-- Concrete blocks for the idempotence example. -/
def crbC7 : ChBlock := { data := ⟨[1, 1], [5]⟩, axis := [0] }

/-- Concrete container for the idempotence example. -/
def rawC7 : Container := [("M", cmbC7), ("R", crbC7)]

/-- C7 witness: the idempotence theorem applied to a concrete pair; the
residual offset of cycle 0 after re-application is within 1e-9. -/
theorem offset_correction_idempotent_witness :
    |(perCycleOffsets (afterCorrection cmbC7 crbC7).data crbC7.data
        (afterCorrection cmbC7 crbC7).axis crbC7.axis).getD 0 0| ≤ 1 / 1000000000 := by
  have h := offset_correction_idempotent rawC7 "M" "R" cmbC7 crbC7 [0] 1 1
    (by decide) (by decide) (by decide) rfl rfl rfl rfl rfl (by norm_num) (by simp)
  exact h.2.2.1 0 (by norm_num)

/-! ### Claim C4: axis classification -/

theorem foldl_min_lt_iff (rest : List ℚ) (x t : ℚ) :
    rest.foldl min x < t ↔ x < t ∨ ∃ y ∈ rest, y < t := by
  induction rest generalizing x with
  | nil => simp
  | cons y ys ih =>
    simp only [List.foldl_cons]
    rw [ih (min x y)]
    constructor
    · rintro (h | h)
      · rcases min_lt_iff.mp h with h' | h'
        · exact Or.inl h'
        · exact Or.inr ⟨y, by simp, h'⟩
      · rcases h with ⟨z, hz, hzt⟩
        exact Or.inr ⟨z, by simp [hz], hzt⟩
    · rintro (h | h)
      · exact Or.inl (min_lt_iff.mpr (Or.inl h))
      · rcases h with ⟨z, hz, hzt⟩
        rcases List.mem_cons.mp hz with rfl | hz'
        · exact Or.inl (min_lt_iff.mpr (Or.inr hzt))
        · exact Or.inr ⟨z, hz', hzt⟩

theorem npNanMin_lt_iff (xs : List ℚ) (hx : xs ≠ []) (t : ℚ) :
    npNanMin xs < t ↔ ∃ y ∈ xs, y < t := by
  cases xs with
  | nil => exact absurd rfl hx
  | cons x rest =>
    show rest.foldl min x < t ↔ _
    rw [foldl_min_lt_iff]
    constructor
    · rintro (h | ⟨y, hy, hyt⟩)
      · exact ⟨x, by simp, h⟩
      · exact ⟨y, by simp [hy], hyt⟩
    · rintro ⟨y, hy, hyt⟩
      rcases List.mem_cons.mp hy with rfl | hy'
      · exact Or.inl hyt
      · exact Or.inr ⟨y, hy', hyt⟩

/-- C4: a numeric axis of length < 2 classifies as Cycle; otherwise the
classification is CrankAngle exactly when the minimum value is negative
(some element is below 0) or the median consecutive step is below 0.5 in
absolute value, and Cycle exactly otherwise. -/
theorem classify_axis_correct (axis : List ℚ) :
    (axis.length < 2 → classify_axis axis = "CY") ∧
    (2 ≤ axis.length →
      ((classify_axis axis = "CA" ↔
          ((∃ y ∈ axis, y < 0) ∨ |npMedian (npDiff axis)| < 1 / 2)) ∧
        (classify_axis axis = "CY" ↔
          ¬((∃ y ∈ axis, y < 0) ∨ |npMedian (npDiff axis)| < 1 / 2)))) := by
  constructor
  · intro h
    rw [classify_axis, if_pos h]
  · intro h
    have hlt : ¬axis.length < 2 := not_lt.mpr h
    have hne : axis ≠ [] := by
      intro hh
      rw [hh] at h
      simp at h
    have hdiffs : (npDiff axis).length ≠ 0 := by
      rw [npDiff, List.length_zipWith, List.length_tail]
      omega
    have hstep : classify_axis axis =
        if npNanMin axis < 0 ∨ |npMedian (npDiff axis)| < 1 / 2 then "CA" else "CY" := by
      rw [classify_axis, if_neg hlt]
      simp only []
      rw [if_pos hdiffs]
    rw [hstep]
    by_cases hcond : npNanMin axis < 0 ∨ |npMedian (npDiff axis)| < 1 / 2
    · rw [if_pos hcond]
      have hiff : ((∃ y ∈ axis, y < 0) ∨ |npMedian (npDiff axis)| < 1 / 2) := by
        rcases hcond with h1 | h1
        · exact Or.inl ((npNanMin_lt_iff axis hne 0).mp h1)
        · exact Or.inr h1
      refine ⟨⟨fun _ => hiff, fun _ => rfl⟩, ?_, ?_⟩
      · intro hca
        exact absurd hca (by decide)
      · intro hnot
        exact absurd hiff hnot
    · rw [if_neg hcond]
      have hnot : ¬((∃ y ∈ axis, y < 0) ∨ |npMedian (npDiff axis)| < 1 / 2) := by
        intro hcon
        apply hcond
        rcases hcon with h1 | h1
        · exact Or.inl ((npNanMin_lt_iff axis hne 0).mpr h1)
        · exact Or.inr h1
      refine ⟨⟨?_, ?_⟩, fun _ => hnot, fun _ => rfl⟩
      · intro hca
        exact absurd hca (by decide)
      · intro hcon
        exact absurd hcon hnot

/-- C4 witness: the classifier theorem applied to the concrete axis
`[-1, 5]`, whose minimum is negative, classifying it CrankAngle. -/
theorem classify_axis_correct_witness : classify_axis [-1, 5] = "CA" := by
  have h := (classify_axis_correct [-1, 5]).2 (by decide)
  exact h.1.mpr (Or.inl ⟨-1, by simp, by norm_num⟩)

/-! ### Claims C9 and C10 -/

/-- C9: every GENERAL record a `ParameterView` produces has
`RecordCount = 1`, `Base = ""` and `Range = ""`, whatever the block. -/
theorem param_general_constants (pname : String) (p : PBlock) (test : String)
    (g : GeneralRec) (h : param_build_general pname p test = some g) :
    g.recordCount = 1 ∧ g.base = "" ∧ g.range = "" := by
  unfold param_build_general at h
  cases he : param_extract_components pname p with
  | none =>
    rw [he] at h
    simp at h
  | some e =>
    rw [he] at h
    simp only [Option.map_some'] at h
    injection h with h2
    rw [← h2]
    exact ⟨rfl, rfl, rfl⟩

/-- The GENERAL record of the parameter `x = 5.0` with test file `t`. -/
def gC9 : GeneralRec :=
  { channel := "x", units := "-", description := "", base := "", recordCount := 1,
    range := "", test := "t" }

/-- C9 witness: the theorem applied to the concrete parameter `x = 5.0`. -/
theorem param_general_constants_witness :
    gC9.recordCount = 1 ∧ gC9.base = "" ∧ gC9.range = "" :=
  param_general_constants "x" (PBlock.num 5) "t" gC9 rfl

/-- C10 counterexample: a parameter named `""` — the value column key
collides with the index key in the Python dict, so VALUES has one key, not
two, and the index array `[0]` is gone. -/
theorem param_values_empty_name_single_key :
    param_build_values "" (PBlock.num 5) = some [("", PArr.floats [some 5])] := rfl

/-- C10 (amended): for every parameter whose name is non-empty, VALUES has
exactly the two keys `""` (the index column `[0]`) and the parameter name
(the one-element extracted-value column, object-typed for strings and
float-typed otherwise); the index key is `""`, not `"CA"`. -/
theorem param_values_two_columns (pname : String) (p : PBlock)
    (m : List (String × PArr)) (hne : pname ≠ "")
    (h : param_build_values pname p = some m) :
    m.map Prod.fst = ["", pname] ∧ m.length = 2 ∧
    dlookup "" m = some (PArr.ints [0]) ∧
    dlookup pname m = (param_extract_components pname p).map (fun e => encodeParamVal e.1) := by
  cases he : param_extract_components pname p with
  | none =>
    rw [param_build_values, he] at h
    simp at h
  | some e =>
    rw [param_build_values, he] at h
    simp only [Option.map_some'] at h
    injection h with h2
    subst h2
    have hd1 : dinsert ([] : List (String × PArr)) "" (PArr.ints [0]) =
        [("", PArr.ints [0])] := rfl
    have hany : ([("", PArr.ints [0])].any (fun q => q.1 = pname)) = false := by
      simp only [List.any_cons, List.any_nil, Bool.or_false, decide_eq_false_iff_not]
      exact fun hh => hne hh.symm
    have hd2 : dinsert [("", PArr.ints [0])] pname (encodeParamVal e.1) =
        [("", PArr.ints [0]), (pname, encodeParamVal e.1)] := by
      unfold dinsert
      rw [hany]
      rfl
    rw [hd1, hd2]
    refine ⟨rfl, rfl, rfl, ?_⟩
    rw [dlookup_cons, if_neg (fun hh => hne hh.symm), dlookup_cons, if_pos rfl]
    rfl

/-- C10 witness: the amended theorem applied to the parameter `x = 5.0`. -/
theorem param_values_two_columns_witness :
    dlookup "" [("", PArr.ints [0]), ("x", PArr.floats [some 5])] = some (PArr.ints [0]) ∧
    dlookup "x" [("", PArr.ints [0]), ("x", PArr.floats [some 5])] =
      some (PArr.floats [some 5]) := by
  have h := param_values_two_columns "x" (PBlock.num 5)
    [("", PArr.ints [0]), ("x", PArr.floats [some 5])] (by decide) rfl
  exact ⟨h.2.2.1, h.2.2.2⟩

/-! ### Claim C3 -/

/-- C3: for data of shape `(720, 50)` with a 720-sample axis (axis matches
rows), VALUES holds the `"CA"` column — the axis with every element
repeated 50 consecutive times (element `k` is `axis[k / 50]`), of length
36000 — and one data column equal to the data transposed then flattened
(element `k` is buffer element `(k % 720) * 50 + k / 720`, the column-major
traversal of the row-major buffer). -/
theorem values_720x50_row_match (name : String) (b : ChBlock)
    (hname : name ≠ "CA")
    (hshape : b.data.shape = [720, 50]) (haxis : b.axis.length = 720) :
    build_values_mapping name b =
      [("CA", npRepeat b.axis 50), (name, transposeFlat 720 50 b.data.flat)] ∧
    (npRepeat b.axis 50).length = 36000 ∧
    (∀ k, k < 36000 → (npRepeat b.axis 50).getD k 0 = b.axis.getD (k / 50) 0) ∧
    (transposeFlat 720 50 b.data.flat).length = 36000 ∧
    (∀ k, k < 36000 → (transposeFlat 720 50 b.data.flat).getD k 0 =
      b.data.flat.getD ((k % 720) * 50 + k / 720) 0) := by
  have hsz : b.data.size = 36000 := by
    rw [NArr.size, hshape]
    rfl
  have hnd : b.data.ndim = 2 := by
    rw [NArr.ndim, hshape]
    rfl
  refine ⟨?_, ?_, ?_, ?_, ?_⟩
  · simp only [build_values_mapping]
    rw [if_neg (by rw [hsz]; norm_num), if_neg (by rw [hnd]; norm_num), if_pos hnd]
    rw [hshape]
    simp only [getD_pair_zero, getD_pair_one, haxis]
    rw [if_neg (by norm_num)]
    simp only [if_true]
    have hany : ([("CA", npRepeat b.axis 50)].any (fun q => q.1 = name)) = false := by
      simp only [List.any_cons, List.any_nil, Bool.or_false, decide_eq_false_iff_not]
      exact fun hh => hname hh.symm
    show dinsert [("CA", npRepeat b.axis 50)] name (transposeFlat 720 50 b.data.flat) = _
    unfold dinsert
    rw [hany]
    rfl
  · rw [length_npRepeat, haxis]
  · intro k hk
    exact npRepeat_getD b.axis 50 k (by rw [haxis]; exact hk)
  · rw [length_transposeFlat]
  · intro k hk
    rw [transposeFlat]
    rw [getD_range_map _ (50 * 720) k 0 (by omega)]

/-- A concrete 720 × 50 block (axis `0..719`; the buffer content is
irrelevant to the shape of the result). -/
def bC3 : ChBlock := { data := ⟨[720, 50], []⟩, axis := npArangeQ 720 }

set_option maxRecDepth 100000 in
/-- C3 witness: the theorem applied to the concrete 720 × 50 block. -/
theorem values_720x50_row_match_witness :
    build_values_mapping "X" bC3 =
      [("CA", npRepeat bC3.axis 50), ("X", transposeFlat 720 50 bC3.data.flat)] :=
  (values_720x50_row_match "X" bC3 (by decide) rfl (length_npArangeQ 720)).1

/-! ### Claim C2: helper lemmas -/

theorem dinsert_nil {α : Type} (k : String) (v : α) :
    dinsert ([] : List (String × α)) k v = [(k, v)] := rfl

theorem mem_dinsert_pair {α : Type} (k1 k2 : String) (v1 v2 : α) (p : String × α)
    (h : p ∈ dinsert [(k1, v1)] k2 v2) : p = (k1, v1) ∨ p = (k2, v2) := by
  rcases mem_dinsert _ _ _ p h with h1 | h1
  · exact Or.inr h1
  · exact Or.inl (List.mem_singleton.mp h1.1)

theorem prod_pair (s0 s1 : ℕ) : ([s0, s1] : List ℕ).prod = s0 * s1 := by
  simp [List.prod_cons]

theorem isMultiComponent_false_of_small (b : ChBlock)
    (h : b.data.size = 0 ∨ b.data.ndim < 3) : isMultiComponent b = false := by
  rw [isMultiComponent]
  rcases h with h | h
  · rw [if_pos h]
  · by_cases hsz : b.data.size = 0
    · rw [if_pos hsz]
    · rw [if_neg hsz, if_pos h]

theorem isMultiComponent_of_found (b : ChBlock) (d : ℕ)
    (hsz : ¬b.data.size = 0) (hnd : ¬b.data.ndim < 3)
    (hfd : findAxisDim b.data.shape b.axis.length = some d) :
    isMultiComponent b =
      (decide ((b.data.shape.eraseIdx d ++ [b.data.shape.getD d 0]).dropLast ≠ []) &&
        decide (1 < ((b.data.shape.eraseIdx d ++ [b.data.shape.getD d 0]).dropLast).getD 0 0)) := by
  rw [isMultiComponent, if_neg hsz, if_neg hnd]
  simp only [hfd]

theorem isMultiComponent_of_none (b : ChBlock)
    (hsz : ¬b.data.size = 0) (hnd : ¬b.data.ndim < 3)
    (hfd : findAxisDim b.data.shape b.axis.length = none) :
    isMultiComponent b = false := by
  rw [isMultiComponent, if_neg hsz, if_neg hnd]
  simp only [hfd]

theorem componentCount_of_found (b : ChBlock) (d : ℕ)
    (hfd : findAxisDim b.data.shape b.axis.length = some d) :
    componentCount b =
      ((b.data.shape.eraseIdx d ++ [b.data.shape.getD d 0]).dropLast).getD 0 0 := by
  rw [componentCount]
  simp only [hfd]

theorem componentNames_of_found (b : ChBlock) (name : String) :
    componentNames name b =
      (match b.compNames with
       | some ns => if ns.length = componentCount b then ns
           else (List.range (componentCount b)).map (fun i => name ++ "_" ++ toString (i + 1))
       | none => (List.range (componentCount b)).map (fun i => name ++ "_" ++ toString (i + 1))) :=
  rfl

theorem fallback_values_len (name : String) (b : ChBlock) (p : String × List ℚ)
    (hwf : b.data.wf)
    (hp : p ∈ dinsert (dinsert [] "CA"
      (if 0 < b.axis.length then npResize b.axis b.data.size else npArangeQ b.data.size))
      name b.data.flat) :
    p.2.length = b.data.size := by
  rw [dinsert_nil] at hp
  rcases mem_dinsert_pair _ _ _ _ p hp with h1 | h1
  · rw [h1]
    show (if 0 < b.axis.length then npResize b.axis b.data.size
      else npArangeQ b.data.size).length = b.data.size
    split
    · exact length_npResize b.axis b.data.size
    · exact length_npArangeQ b.data.size
  · rw [h1]
    exact hwf

theorem values_columns_goal_nonmulti (b : ChBlock) (p : String × List ℚ)
    (hmc : isMultiComponent b = false) (hlen : p.2.length = b.data.size) :
    p.2.length = (if isMultiComponent b = true ∧ p.1 ≠ "CA" then
      b.data.size / componentCount b else b.data.size) ∧
    (isMultiComponent b = true →
      2 ≤ componentCount b ∧
      componentCount b * (b.data.size / componentCount b) = b.data.size) := by
  have hcond : ¬(isMultiComponent b = true ∧ p.1 ≠ "CA") := by
    rw [hmc]
    simp
  refine ⟨?_, ?_⟩
  · rw [if_neg hcond]
    exact hlen
  · intro h
    rw [hmc] at h
    simp at h

/-- C2 (amended): with a well-formed buffer and no declared component name
colliding with `"CA"`, every VALUES column has the full element count of
the block — except on the multi-component branch, where each component
column has `size / components` elements while the `"CA"` column keeps all
`size` (so it is `components` times longer); the component count is then at
least 2 and divides the size exactly. -/
theorem values_columns_lengths (name : String) (b : ChBlock) (p : String × List ℚ)
    (hwf : b.data.wf)
    (hcoll : isMultiComponent b = true → "CA" ∉ componentNames name b)
    (hp : p ∈ build_values_mapping name b) :
    p.2.length = (if isMultiComponent b = true ∧ p.1 ≠ "CA" then
      b.data.size / componentCount b else b.data.size) ∧
    (isMultiComponent b = true →
      2 ≤ componentCount b ∧
      componentCount b * (b.data.size / componentCount b) = b.data.size) := by
  by_cases hsz : b.data.size = 0
  · have hmc : isMultiComponent b = false := isMultiComponent_false_of_small b (Or.inl hsz)
    simp only [build_values_mapping, if_pos hsz] at hp
    rw [dinsert_nil] at hp
    refine values_columns_goal_nonmulti b p hmc ?_
    rcases mem_dinsert_pair _ _ _ _ p hp with h1 | h1 <;>
      · rw [h1, hsz]
        rfl
  · by_cases hnd1 : b.data.ndim = 1
    · have hmc : isMultiComponent b = false :=
        isMultiComponent_false_of_small b (Or.inr (by omega))
      simp only [build_values_mapping, if_neg hsz, if_pos hnd1] at hp
      rw [dinsert_nil] at hp
      refine values_columns_goal_nonmulti b p hmc ?_
      rcases mem_dinsert_pair _ _ _ _ p hp with h1 | h1
      · rw [h1]
        show (if b.axis.length = b.data.size then b.axis
          else if 0 < b.axis.length then npResize b.axis b.data.size
          else npArangeQ b.data.size).length = b.data.size
        by_cases hc1 : b.axis.length = b.data.size
        · rw [if_pos hc1]
          exact hc1
        · rw [if_neg hc1]
          by_cases hc2 : 0 < b.axis.length
          · rw [if_pos hc2]
            exact length_npResize b.axis b.data.size
          · rw [if_neg hc2]
            exact length_npArangeQ b.data.size
      · rw [h1]
        exact hwf
    · by_cases hnd2 : b.data.ndim = 2
      · have hmc : isMultiComponent b = false :=
          isMultiComponent_false_of_small b (Or.inr (by omega))
        obtain ⟨s0, s1, hsh⟩ := List.length_eq_two.mp hnd2
        have hsize2 : b.data.size = s0 * s1 := by
          show b.data.shape.prod = s0 * s1
          rw [hsh, prod_pair]
        simp only [build_values_mapping, if_neg hsz, if_neg hnd1, if_pos hnd2, hsh,
          getD_pair_zero, getD_pair_one] at hp
        refine values_columns_goal_nonmulti b p hmc ?_
        by_cases hc1 : b.axis.length = s1
        · rw [if_pos hc1, dinsert_nil] at hp
          rcases mem_dinsert_pair _ _ _ _ p hp with h1 | h1
          · rw [h1]
            show (npTile b.axis s0).length = b.data.size
            rw [length_npTile, hc1, hsize2]
          · rw [h1]
            exact hwf
        · rw [if_neg hc1] at hp
          by_cases hc2 : b.axis.length = s0
          · rw [if_pos hc2, dinsert_nil] at hp
            rcases mem_dinsert_pair _ _ _ _ p hp with h1 | h1
            · rw [h1]
              show (npRepeat b.axis s1).length = b.data.size
              rw [length_npRepeat, hc2, hsize2]
            · rw [h1]
              show (transposeFlat s0 s1 b.data.flat).length = b.data.size
              rw [length_transposeFlat, hsize2, Nat.mul_comm]
          · rw [if_neg hc2, dinsert_nil] at hp
            rcases mem_dinsert_pair _ _ _ _ p hp with h1 | h1
            · rw [h1]
              show (if 0 < b.axis.length then npResize b.axis b.data.size
                else npArangeQ b.data.size).length = b.data.size
              split
              · exact length_npResize b.axis b.data.size
              · exact length_npArangeQ b.data.size
            · rw [h1]
              exact hwf
      · by_cases hnd3 : 3 ≤ b.data.ndim
        · cases hfd : findAxisDim b.data.shape b.axis.length with
          | none =>
            have hmc : isMultiComponent b = false :=
              isMultiComponent_of_none b hsz (not_lt.mpr hnd3) hfd
            simp only [build_values_mapping, if_neg hsz, if_neg hnd1, if_neg hnd2,
              if_pos hnd3, hfd] at hp
            exact values_columns_goal_nonmulti b p hmc (fallback_values_len name b p hwf hp)
          | some d =>
            obtain ⟨hdlt, hdgd, hapos⟩ := findAxisDim_spec b.data.shape b.axis.length d hfd
            simp only [build_values_mapping, if_neg hsz, if_neg hnd1, if_neg hnd2,
              if_pos hnd3, hfd, shape_moveaxisLast, List.dropLast_concat,
              List.getLast?_concat, Option.getD_some, hdgd] at hp
            have hdiv : (b.data.shape.eraseIdx d).prod * b.axis.length / b.axis.length =
                (b.data.shape.eraseIdx d).prod := Nat.mul_div_cancel _ hapos
            rw [hdiv] at hp
            have hsize3 : b.data.size = (b.data.shape.eraseIdx d).prod * b.axis.length := by
              show b.data.shape.prod = _
              rw [← prod_eraseIdx_mul b.data.shape d hdlt, hdgd]
            have hca_len : (npTile b.axis ((b.data.shape.eraseIdx d).prod)).length =
                b.data.size := by
              rw [length_npTile, hsize3]
            by_cases hcomp : b.data.shape.eraseIdx d ≠ [] ∧
                1 < (b.data.shape.eraseIdx d).getD 0 0
            · -- multi-component branch
              obtain ⟨e0, et, hE⟩ := List.exists_cons_of_ne_nil hcomp.1
              have he0 : 1 < e0 := by
                have := hcomp.2
                rw [hE, List.getD_cons_zero] at this
                exact this
              have hmc : isMultiComponent b = true := by
                rw [isMultiComponent_of_found b d hsz (not_lt.mpr hnd3) hfd,
                  List.dropLast_concat, Bool.and_eq_true, decide_eq_true_eq,
                  decide_eq_true_eq]
                exact ⟨hcomp.1, hcomp.2⟩
              have hcc : componentCount b = e0 := by
                rw [componentCount_of_found b d hfd, List.dropLast_concat, hE,
                  List.getD_cons_zero]
              rw [if_pos hcomp] at hp
              rw [hE] at hp
              simp only [List.getD_cons_zero, List.prod_cons] at hp
              have hch : e0 * et.prod * b.axis.length / e0 = et.prod * b.axis.length := by
                rw [Nat.mul_assoc]
                exact Nat.mul_div_cancel_left _ (by omega)
              rw [hch] at hp
              have hflatlen : (moveaxisLast b.data d).flat.length =
                  e0 * (et.prod * b.axis.length) := by
                rw [length_moveaxisLast_flat, shape_moveaxisLast, List.prod_append,
                  List.prod_cons, List.prod_nil, Nat.mul_one, hE, List.prod_cons, hdgd,
                  Nat.mul_assoc]
              have hsz_chunk : b.data.size / componentCount b = et.prod * b.axis.length := by
                rw [hcc, hsize3, hE, List.prod_cons, Nat.mul_assoc]
                exact Nat.mul_div_cancel_left _ (by omega)
              have hnames : componentNames name b =
                  (match b.compNames with
                   | some ns => if ns.length = e0 then ns
                       else (List.range e0).map (fun i => name ++ "_" ++ toString (i + 1))
                   | none =>
                       (List.range e0).map (fun i => name ++ "_" ++ toString (i + 1))) := by
                rw [componentNames_of_found, hcc]
              rw [dinsert_nil, ← hnames] at hp
              rcases mem_foldl_dinsert _ _ p hp with hini | ⟨q, hq, hpq⟩
              · have hpe : p = ("CA", npTile b.axis ((e0 :: et).prod)) :=
                  List.mem_singleton.mp hini
                have hcond : ¬(isMultiComponent b = true ∧ p.1 ≠ "CA") := by
                  rw [hpe]
                  simp
                refine ⟨?_, ?_⟩
                · rw [if_neg hcond, hpe]
                  show (npTile b.axis ((e0 :: et).prod)).length = b.data.size
                  rw [length_npTile, hsize3, hE, List.prod_cons]
                · intro _
                  refine ⟨by omega, ?_⟩
                  rw [hsz_chunk, hcc, hsize3, hE, List.prod_cons, Nat.mul_assoc]
              · have hq1 : p.1 ∈ componentNames name b := by
                  rw [hpq]
                  exact (List.of_mem_zip hq).1
                have hq2 : p.2 ∈ (List.range e0).map (fun i =>
                    ((moveaxisLast b.data d).flat.drop (i * (et.prod * b.axis.length))).take
                      (et.prod * b.axis.length)) := by
                  rw [hpq]
                  exact (List.of_mem_zip hq).2
                have hpne : p.1 ≠ "CA" := by
                  intro hh
                  exact hcoll hmc (hh ▸ hq1)
                rcases List.mem_map.mp hq2 with ⟨i, hi, hie⟩
                have hi' : i < e0 := List.mem_range.mp hi
                have hlen : p.2.length = et.prod * b.axis.length := by
                  rw [← hie, List.length_take, List.length_drop, hflatlen]
                  apply Nat.min_eq_left
                  apply Nat.le_sub_of_add_le
                  rw [Nat.add_comm, ← Nat.succ_mul]
                  exact Nat.mul_le_mul_right _ (by omega)
                refine ⟨?_, ?_⟩
                · rw [if_pos ⟨hmc, hpne⟩, hsz_chunk, hlen]
                · intro _
                  refine ⟨by omega, ?_⟩
                  rw [hsz_chunk, hcc, hsize3, hE, List.prod_cons, Nat.mul_assoc]
            · -- matched axis, single-component branch
              have hmc : isMultiComponent b = false := by
                rw [isMultiComponent_of_found b d hsz (not_lt.mpr hnd3) hfd,
                  List.dropLast_concat]
                rcases not_and_or.mp hcomp with h | h
                · rw [decide_eq_false h, Bool.false_and]
                · rw [decide_eq_false h, Bool.and_false]
              rw [if_neg hcomp, dinsert_nil] at hp
              refine values_columns_goal_nonmulti b p hmc ?_
              rcases mem_dinsert_pair _ _ _ _ p hp with h1 | h1
              · rw [h1]
                exact hca_len
              · rw [h1]
                show (moveaxisLast b.data d).flat.length = b.data.size
                rw [length_moveaxisLast_flat, shape_moveaxisLast, List.prod_append,
                  List.prod_cons, List.prod_nil, Nat.mul_one, hdgd, hsize3]
        · have hmc : isMultiComponent b = false :=
            isMultiComponent_false_of_small b (Or.inr (by omega))
          simp only [build_values_mapping, if_neg hsz, if_neg hnd1, if_neg hnd2,
            if_neg hnd3] at hp
          exact values_columns_goal_nonmulti b p hmc (fallback_values_len name b p hwf hp)

/-- A multi-component block: shape `(2, 1, 3)`, axis of length 3 (matched
by the last dimension), leading dimension 2 → two declared components. -/
def bC2x : ChBlock :=
  { data := ⟨[2, 1, 3], [1, 2, 3, 4, 5, 6]⟩, axis := [10, 20, 30],
    compNames := some ["A", "B"] }

/-- C2 counterexample: on the multi-component branch the `"CA"` column has
6 elements while each component column has 3 — the columns of the VALUES
mapping do not all have the same length. -/
theorem values_multicomponent_unequal_columns :
    (build_values_mapping "X" bC2x).map (fun q => q.2.length) = [6, 3, 3] ∧
    ¬(∀ q1 ∈ build_values_mapping "X" bC2x, ∀ q2 ∈ build_values_mapping "X" bC2x,
        q1.2.length = q2.2.length) := by
  decide

/-- C2 witness: the amended theorem applied to component `"A"` of the
concrete multi-component block. -/
theorem values_columns_lengths_witness :
    ([(1 : ℚ), 2, 3] : List ℚ).length = bC2x.data.size / componentCount bC2x ∧
    2 ≤ componentCount bC2x := by
  have h := values_columns_lengths "X" bC2x ("A", [1, 2, 3])
    (by show bC2x.data.flat.length = bC2x.data.shape.prod; decide)
    (fun _ => by decide) (by decide)
  refine ⟨?_, (h.2 (by decide)).1⟩
  have h1 := h.1
  rwa [if_pos ⟨(by decide : isMultiComponent bC2x = true),
    (by decide : ("A" : String) ≠ "CA")⟩] at h1
